import Mathlib

/-!
Verification development for the pylabframe laboratory-automation toolkit.

The definitions below are a shallow embedding of the code in
`pylabframe/data/core.py` (the labeled N-dimensional data container:
indexing, stacking, persistence), `pylabframe/hw/visadevice.py`
(remote-property value transforms and the completion-wait loop) and
`pylabframe/hw/device.py` (device registry resolution).

Modelling conventions:
* numpy arrays are modelled as a flat row-major data list plus a shape
  vector (`NpArray`); sample values are rationals;
* numpy indexing with non-negative integers, non-negative unit-step
  slices, a single ellipsis and 1-d integer index arrays is modelled by
  `npGetItem`, including advanced indexing: index arrays and any bare
  integers broadcast jointly to one dimension, placed at the position of
  the first advanced selector when the advanced selectors are adjacent
  and in front of the result otherwise;
* Python exceptions are modelled by the `PyErr` type; fallible code
  returns `Except PyErr`;
* in-place mutation of the parent container performed by
  `IndexLocator.__getitem__` (it appends to the parent's `reduced_axes`
  list, which it does not copy) is modelled by returning the
  post-indexing parent state alongside the child.
-/

/-- Python exception kinds raised by the modelled code paths. -/
inductive PyErr where
  | indexError (msg : String)
  | valueError (msg : String)
  | keyError (key : String)
  | runtimeError (msg : String)
  | importError (msg : String)
  | syntaxError (msg : String)
  | timeoutError (msg : String)
deriving Repr, DecidableEq

/-- Multi-axis index selectors accepted by `NumericalData.iloc` (numpy-style):
a bare non-negative integer, a slice with optional non-negative bounds and
unit step, a 1-d integer index array, or an ellipsis. -/
inductive Sel where
  | int (i : Nat)
  | slice (start : Option Nat) (stop : Option Nat)
  | arr (idxs : List Nat)
  | ellipsis
deriving Repr, DecidableEq

/-- Full slice `slice(None)`, produced by ellipsis expansion. -/
def sliceAll : Sel := Sel.slice none none

/-- Whether a selector is an ellipsis. -/
def Sel.isEllipsis : Sel → Bool
  | .ellipsis => true
  | _ => false

/-- Whether a selector is a bare integer (the only kind that collapses an axis). -/
def Sel.isInt : Sel → Bool
  | .int _ => true
  | _ => false

/-- Whether a selector is an index array. -/
def Sel.isArr : Sel → Bool
  | .arr _ => true
  | _ => false

/-- Number of ellipses in an index expression. -/
def countEllipsis (item : List Sel) : Nat :=
  (item.filter Sel.isEllipsis).length

/-- Number of non-ellipsis selectors in an index expression. -/
def countNonEllipsis (item : List Sel) : Nat :=
  (item.filter (fun s => !s.isEllipsis)).length

/-- Number of non-integer selectors in an index expression (each keeps an axis). -/
def countNonInt (item : List Sel) : Nat :=
  (item.filter (fun s => !s.isInt)).length

/-- Replace the first ellipsis by `pad` full slices; with no ellipsis present,
append `pad` full slices at the end (numpy pads missing trailing axes). -/
def expandAt (pad : Nat) : List Sel → List Sel
  | [] => List.replicate pad sliceAll
  | .ellipsis :: rest => List.replicate pad sliceAll ++ rest
  | s :: rest => s :: expandAt pad rest

/-- Expand an index expression with at most one ellipsis to exactly `ndim`
per-axis selectors, numpy-style. -/
def expandSels (ndim : Nat) (item : List Sel) : List Sel :=
  expandAt (ndim - countNonEllipsis item) item

/-- The numpy array model: a shape vector and the row-major flat data. -/
structure NpArray where
  shape : List Nat
  data : List ℚ
deriving Repr, DecidableEq

/-- Row-major flat position of a multi-index. -/
def flatIndex : List Nat → List Nat → Nat
  | _ :: s, i :: idx => i * s.prod + flatIndex s idx
  | _, _ => 0

/-- Whether a multi-index is within the bounds of a shape. -/
def validIdx : List Nat → List Nat → Bool
  | [], [] => true
  | n :: s, i :: idx => decide (i < n) && validIdx s idx
  | _, _ => false

/-- Element of an array at a multi-index (junk value 0 outside bounds). -/
def NpArray.get (a : NpArray) (idx : List Nat) : ℚ :=
  a.data.getD (flatIndex a.shape idx) 0

/-- All multi-indices of a shape, in row-major order. -/
def allIdxs : List Nat → List (List Nat)
  | [] => [[]]
  | n :: s => ((List.range n).map (fun i => (allIdxs s).map (fun idx => i :: idx))).flatten

/-- Array of the given shape whose entries are computed by `f`. -/
def NpArray.ofFn (shape : List Nat) (f : List Nat → ℚ) : NpArray :=
  ⟨shape, (allIdxs shape).map f⟩

/-- Indices selected along one axis of length `n` by a slice with optional
non-negative bounds (Python clamping semantics, unit step). -/
def sliceIdxs (n : Nat) (start stop : Option Nat) : List Nat :=
  (List.range n).filter (fun j => decide (start.getD 0 ≤ j) && decide (j < stop.getD n))

/-- Indices selected along one axis of length `n` by one (post-expansion)
selector; a bare integer or index-array entry out of bounds is an
`IndexError`, exactly as in numpy. -/
def selChoices (n : Nat) : Sel → Except PyErr (List Nat)
  | .int i => if i < n then .ok [i] else .error (.indexError "index out of bounds")
  | .slice a b => .ok (sliceIdxs n a b)
  | .arr js => if js.all (fun j => decide (j < n)) then .ok js else .error (.indexError "index out of bounds")
  | .ellipsis => .ok (List.range n)

/-- Per-axis pairing of each selector with the axis indices it chooses. -/
def seqChoices : List Nat → List Sel → Except PyErr (List (Sel × List Nat))
  | [], [] => .ok []
  | n :: s, sel :: rest =>
    match selChoices n sel with
    | .error e => .error e
    | .ok ch =>
      match seqChoices s rest with
      | .error e => .error e
      | .ok tail => .ok ((sel, ch) :: tail)
  | _, _ => .error (.indexError "internal shape mismatch")

/-- Cartesian product of per-axis index choices, in row-major order. -/
def cartProd : List (List Nat) → List (List Nat)
  | [] => [[]]
  | l :: ls => (l.map (fun i => (cartProd ls).map (fun idx => i :: idx))).flatten

/-- Whether a selector takes part in advanced indexing: once any index
array is present, numpy treats bare integers as 0-d advanced indices that
broadcast with the arrays. -/
def Sel.isAdvanced (s : Sel) : Bool := s.isInt || s.isArr

/-- Whether a list of positions is a consecutive run. -/
def contiguousRun : List Nat → Bool
  | [] => true
  | [_] => true
  | p :: q :: rest => (q == p + 1) && contiguousRun (q :: rest)

/-- Common broadcast length of the 1-d index arrays of an expression: all
lengths other than 1 must agree (numpy broadcasting of 1-d shapes);
`none` models the `IndexError` numpy raises on a shape mismatch. -/
def broadcastLen (ls : List (List Nat)) : Option Nat :=
  match (ls.map List.length).filter (fun n => n ≠ 1) with
  | [] => some 1
  | n :: rest => if rest.all (fun m => m == n) then some n else none

/-- Source multi-index of the element selected for broadcast coordinate
`t` and per-slice coordinates `scoords` (in axis order): a bare integer
contributes itself, an index array its `t`-th entry (its only entry when
it has length 1 and broadcasts), and a slice the next slice coordinate
mapped through its chosen indices. -/
def srcIdx (t : Nat) : List (Sel × List Nat) → List Nat → List Nat
  | [], _ => []
  | (sel, ch) :: rest, scoords =>
    match sel with
    | .int i => i :: srcIdx t rest scoords
    | .arr js => js.getD (if js.length = 1 then 0 else t) 0 :: srcIdx t rest scoords
    | _ => ch.getD (scoords.headD 0) 0 :: srcIdx t rest scoords.tail

/-- Positions of the advanced selectors in an expanded expression. -/
def advPositions (sels : List Sel) : List Nat :=
  (List.range sels.length).filter (fun p => (sels.getD p sliceAll).isAdvanced)

/-- Result dimensions kept by the slice selectors, in axis order. -/
def advSliceDims (pairs : List (Sel × List Nat)) : List Nat :=
  (pairs.filter (fun p => !p.1.isAdvanced)).map (fun p => p.2.length)

/-- Shape of an advanced-indexing result: the broadcast dimension `L` sits
at the position of the first advanced selector when the advanced selectors
are all adjacent, and in front of the result otherwise (numpy's placement
rule). -/
def advShape (pairs : List (Sel × List Nat)) (L : Nat) : List Nat :=
  let sd := advSliceDims pairs
  let nb := (advPositions (pairs.map (fun p => p.1))).headD 0
  if contiguousRun (advPositions (pairs.map (fun p => p.1))) then
    sd.take nb ++ L :: sd.drop nb
  else L :: sd

/-- Row-major data of an advanced-indexing result: each result index is
split into the broadcast coordinate and the per-slice coordinates
(according to where the broadcast dimension was placed), and mapped back
to a source multi-index by `srcIdx`. -/
def advData (a : NpArray) (pairs : List (Sel × List Nat)) (L : Nat) : List ℚ :=
  let nb := (advPositions (pairs.map (fun p => p.1))).headD 0
  let contiguous := contiguousRun (advPositions (pairs.map (fun p => p.1)))
  let tOf : List Nat → Nat := fun r => if contiguous then r.getD nb 0 else r.headD 0
  let sOf : List Nat → List Nat := fun r =>
    if contiguous then r.take nb ++ r.drop (nb + 1) else r.tail
  (allIdxs (advShape pairs L)).map (fun r => a.get (srcIdx (tOf r) pairs (sOf r)))

/-- Gather step of `ndarray.__getitem__` over the bounds-checked per-axis
selections. With no index array present this is basic indexing: integer
selectors drop their axis in place and the remaining per-axis choices
combine by cartesian product. With index arrays present it is advanced
indexing: the arrays and any bare integers broadcast to a single new
dimension of the common length, placed by `advShape`. -/
def npGather (a : NpArray) (pairs : List (Sel × List Nat)) : Except PyErr NpArray :=
  if pairs.any (fun p => p.1.isArr) then
    match broadcastLen (pairs.filterMap (fun p =>
      match p.1 with
      | .arr js => some js
      | _ => none)) with
    | none =>
      .error (.indexError "shape mismatch: indexing arrays could not be broadcast together")
    | some L => .ok ⟨advShape pairs L, advData a pairs L⟩
  else
    .ok ⟨(pairs.filter (fun p => !p.1.isInt)).map (fun p => p.2.length),
      (cartProd (pairs.map (fun p => p.2))).map (fun idx => a.get idx)⟩

/-- Model of `ndarray.__getitem__`: checks the single-ellipsis rule and the
selector count, expands the ellipsis, bounds-checks every selector against
its axis, then gathers the selected elements with `npGather` (basic
indexing, or advanced indexing when index arrays are present). -/
def npGetItem (a : NpArray) (item : List Sel) : Except PyErr NpArray :=
  if countEllipsis item > 1 then
    .error (.indexError "an index can only have a single ellipsis")
  else if countNonEllipsis item > a.shape.length then
    .error (.indexError "too many indices for array")
  else
    match seqChoices a.shape (expandSels a.shape.length item) with
    | .error e => .error e
    | .ok pairs => npGather a pairs

/-- Model of `np.stack`: all inputs must share one shape; a new axis of
length `len arrs` is inserted at the (possibly negative) position `axis`,
normalized against the result rank. -/
def npStack (arrs : List NpArray) (axis : Int) : Except PyErr NpArray :=
  match arrs with
  | [] => .error (.valueError "need at least one array to stack")
  | a0 :: rest =>
    if rest.all (fun a => a.shape == a0.shape) then
      let rdim : Int := (a0.shape.length : Int) + 1
      if axis < -rdim ∨ rdim ≤ axis then
        .error (.indexError "axis is out of bounds for array")
      else
        let k : Nat := (if axis < 0 then axis + rdim else axis).toNat
        let newShape := a0.shape.take k ++ arrs.length :: a0.shape.drop k
        .ok (NpArray.ofFn newShape
          (fun idx => (arrs.getD (idx.getD k 0) a0).get (idx.eraseIdx k)))
    else
      .error (.valueError "all input arrays must have the same shape")

deriving instance DecidableEq for Except


mutual
/-- Metadata values stored in a container's free-form `metadata` mapping:
strings, numbers, booleans, closed-enumeration members (class name plus
member name), nested lists and nested dicts. -/
inductive MValue where
  | str (s : String)
  | num (q : ℚ)
  | boolean (b : Bool)
  | enumV (cls member : String)
  | list (items : MList)
  | dict (entries : MDict)
deriving Repr, DecidableEq
/-- A list of metadata values. -/
inductive MList where
  | nil
  | cons (v : MValue) (rest : MList)
deriving Repr, DecidableEq
/-- An ordered string-keyed metadata mapping (a Python dict). -/
inductive MDict where
  | nil
  | cons (k : String) (v : MValue) (rest : MDict)
deriving Repr, DecidableEq
end

mutual
/-- Helper of `map_nested_dict` on a single value: recurse into nested
dicts, apply the function to any other value. -/
def mapNestedVal (f : MValue → MValue) : MValue → MValue
  | .dict entries => .dict (map_nested_dict f entries)
  | v => f v
/-- Modelled from the spec: `pylabframe.util.map_nested_dict` (the `util`
module is not part of the provided sources). Per the spec it applies a
function to every value embedded anywhere in a nested dict, recursing
through dict values and applying the function to non-dict values. -/
def map_nested_dict (f : MValue → MValue) : MDict → MDict
  | .nil => .nil
  | .cons k v rest => .cons k (mapNestedVal f v) (map_nested_dict f rest)
end

/-- The enum-stringification function used by `save_npz`:
an enum member `x` becomes the string `f"{x.__class__.__name__}.{x.name}"`;
every other value is left unchanged. -/
def stringifyEnum : MValue → MValue
  | .enumV cls member => .str (cls ++ "." ++ member)
  | v => v

mutual
/-- Whether a metadata value contains no enumeration member anywhere. -/
def MValue.enumFree : MValue → Bool
  | .enumV _ _ => false
  | .list items => items.enumFree
  | .dict entries => entries.enumFree
  | _ => true
/-- Whether a list of metadata values contains no enumeration member. -/
def MList.enumFree : MList → Bool
  | .nil => true
  | .cons v rest => v.enumFree && rest.enumFree
/-- Whether a metadata mapping contains no enumeration member anywhere. -/
def MDict.enumFree : MDict → Bool
  | .nil => true
  | .cons _ v rest => v.enumFree && rest.enumFree
end

/-- Python dict item assignment `d[key] = v`: replace the value in place if
the key exists (keeping its position), otherwise append the pair at the
end. -/
def MDict.set : MDict → String → MValue → MDict
  | .nil, key, v => .cons key v .nil
  | .cons k v0 rest, key, v =>
    if k = key then .cons k v rest else .cons k v0 (rest.set key v)

/-- One entry of the reduced-axes log, with the field names used by the
dicts appended in `IndexLocator.__getitem__`: the axis name (if any), the
axis position, the integer index used, and the coordinate value that was
selected (None for an unlabeled axis). -/
structure ReducedAxis where
  axis_name : Option String
  axis : Nat
  index : Nat
  value : Option ℚ
deriving Repr, DecidableEq

/-- The labeled N-dimensional data container `NumericalData`:
the sample grid, per-axis coordinate arrays (None for unlabeled axes,
the list may be shorter than the rank), per-axis names (may be shorter
still), the reduced-axes log and the free-form metadata mapping. -/
structure NumericalData where
  data_array : NpArray
  axes : List (Option (List ℚ))
  axes_names : List (Option String)
  reduced_axes : List ReducedAxis
  metadata : MDict
deriving Repr, DecidableEq

/-- Result of applying one selector to a 1-d axis coordinate array:
a bare integer yields the scalar coordinate, any other selector yields a
sub-array of coordinates. -/
inductive AxVal where
  | scalar (q : ℚ)
  | arr (l : List ℚ)
deriving Repr, DecidableEq

/-- Application of one selector to an axis coordinate array, modelling
`self.parent.axes[i][slice_list[i]]` on a 1-d numpy array. -/
def axApply (ax : List ℚ) : Sel → Except PyErr AxVal
  | .int j =>
    if h : j < ax.length then .ok (.scalar (ax.get ⟨j, h⟩))
    else .error (.indexError "index out of bounds")
  | .slice a b => .ok (.arr ((sliceIdxs ax.length a b).map (fun j => ax.getD j 0)))
  | .arr js =>
    if js.all (fun j => decide (j < ax.length)) then .ok (.arr (js.map (fun j => ax.getD j 0)))
    else .error (.indexError "index out of bounds")
  | .ellipsis => .ok (.arr ax)

/-- Normalization of the requested selector list performed by
`IndexLocator.__getitem__` (lines 22-41): append an implicit trailing
ellipsis when the expression is shorter than the rank, reject multiple
ellipses with a `ValueError`, expand the single ellipsis, and reject a
selector count different from the rank with a `ValueError`. -/
def ilocNormalize (ndim : Nat) (item : List Sel) : Except PyErr (List Sel) :=
  let slice_list :=
    if item.length < ndim ∧ countEllipsis item = 0 then item ++ [Sel.ellipsis] else item
  if countEllipsis slice_list > 1 then
    .error (.valueError "Multiple ellipses specified")
  else
    let expanded :=
      if countEllipsis slice_list = 1 then
        expandAt (ndim - (slice_list.length - 1)) slice_list
      else slice_list
    if expanded.length ≠ ndim then
      .error (.valueError "Incorrect number of indices")
    else .ok expanded

/-- Computation of `new_ax_or_val` for one axis (lines 51-55): apply the
selector to the axis coordinate array if one is present at position `i`,
`None` otherwise. -/
def axvOf (axes : List (Option (List ℚ))) (i : Nat) (sel : Sel) :
    Except PyErr (Option AxVal) :=
  match axes.getD i none with
  | some ax => (axApply ax sel).map some
  | none => .ok none

/-- Extraction of the scalar coordinate stored as `collapsed value` when a
bare integer selector removes an axis (`new_ax_or_val` is the scalar
`axes[i][slice_list[i]]` there, or `None` for an unlabeled axis). -/
def scalarOf : Option AxVal → Option ℚ
  | some (.scalar q) => some q
  | _ => none

/-- Extraction of the coordinate sub-array appended to the kept axes when
a non-integer selector keeps an axis. -/
def arrOf : Option AxVal → Option (List ℚ)
  | some (.arr l) => some l
  | _ => none

/-- The per-axis loop of `IndexLocator.__getitem__` (lines 51-67), starting
at axis position `i`: returns the kept sub-axes, the kept axis names, and
the reduced-axes entries appended for bare integer selectors, in order. -/
def ilocLoop (axes : List (Option (List ℚ))) (names : List (Option String)) :
    List Sel → Nat →
    Except PyErr (List (Option (List ℚ)) × List (Option String) × List ReducedAxis)
  | [], _ => .ok ([], [], [])
  | sel :: rest, i =>
    match axvOf axes i sel with
    | .error e => .error e
    | .ok newAxOrVal =>
      match ilocLoop axes names rest (i + 1) with
      | .error e => .error e
      | .ok (sa, sn, ra) =>
        match sel with
        | .int j =>
          .ok (sa, sn, ⟨names.getD i none, i, j, scalarOf newAxOrVal⟩ :: ra)
        | _ =>
          let sn2 := if i < names.length then names.getD i none :: sn else sn
          .ok (arrOf newAxOrVal :: sa, sn2, ra)

/-- Model of `NumericalData.IndexLocator.__getitem__`. The sample grid is
indexed first (numpy raises its own `IndexError`s there), the selector
list is then normalized and walked axis by axis. The Python code appends
the new reduced-axes entries to the parent's own `reduced_axes` list
object (line 43 takes it without copying) and hands that same list to the
child; this mutation is modelled by returning the child together with the
post-indexing parent state. The metadata dict is (shallowly) copied. -/
def ilocGetitem (parent : NumericalData) (item : List Sel) :
    Except PyErr (NumericalData × NumericalData) :=
  match npGetItem parent.data_array item with
  | .error e => .error e
  | .ok sub_array =>
    match ilocNormalize parent.data_array.shape.length item with
    | .error e => .error e
    | .ok slice_list =>
      match ilocLoop parent.axes parent.axes_names slice_list 0 with
      | .error e => .error e
      | .ok (sub_axes, sub_axes_names, new_entries) =>
        let reduced_axes := parent.reduced_axes ++ new_entries
        let child : NumericalData :=
          ⟨sub_array, sub_axes, sub_axes_names, reduced_axes, parent.metadata⟩
        let parentAfter : NumericalData := { parent with reduced_axes := reduced_axes }
        .ok (child, parentAfter)

/-- Python `list.insert(i, x)` semantics: a negative position counts from
the end, and the effective position is clamped into `[0, len]`. -/
def pyInsert {α : Type} (l : List α) (i : Int) (x : α) : List α :=
  let n : Int := l.length
  let j : Nat := (max 0 (min (if i < 0 then i + n else i) n)).toNat
  l.take j ++ x :: l.drop j

/-- Metadata dict `{0: m0, 1: m1, ...}` collected from the stacked
containers when `retain_individual_metadata` is requested (Python uses
integer keys; they are rendered as decimal strings here). -/
def individualMeta (objs : List NumericalData) : MDict :=
  (objs.enum).foldr (fun p acc => MDict.cons (toString p.1) (.dict p.2.metadata) acc) .nil

/-- Model of `NumericalData.stack` for a list of container inputs (the
Python code also accepts raw grids in the mix; the claims under
verification only concern container inputs). The grids are stacked with
`np.stack` along `axis`; the first container's metadata is taken as the
base metadata (with the individual metadata dict stored under
`_individual_metadata` when requested); the first container's axis and
name lists are padded with `None` up to the grid rank and the new axis
coordinate array and name are inserted at the position computed from
`axis` (for a negative `axis`, `len + 1 + axis` against the padded list
length). The result's `reduced_axes` comes from the constructor default:
the empty log. -/
def NumericalData.stack (data_objs : List NumericalData) (axis : Int)
    (new_axis : Option (List ℚ)) (new_axis_name : Option String)
    (retain_individual_metadata : Bool) : Except PyErr NumericalData :=
  let data_arrays := data_objs.map (fun o => o.data_array)
  let base_metadata : MDict := match data_objs with
    | [] => .nil
    | o :: _ => o.metadata
  let new_metadata :=
    if retain_individual_metadata then
      base_metadata.set "_individual_metadata" (.dict (individualMeta data_objs))
    else base_metadata
  match npStack data_arrays axis with
  | .error e => .error e
  | .ok new_data_array =>
    match data_objs with
    | [] => .error (.valueError "need at least one array to stack")
    | o0 :: _ =>
      let ndim := o0.data_array.shape.length
      let new_axes0 := o0.axes
      let new_axes1 :=
        if ndim > new_axes0.length then
          new_axes0 ++ List.replicate (ndim - new_axes0.length) none
        else new_axes0
      let ax_insert_index : Int :=
        if axis < 0 then (new_axes1.length : Int) + 1 + axis else axis
      let new_axes := pyInsert new_axes1 ax_insert_index new_axis
      let new_axnames0 := o0.axes_names
      let new_axnames1 :=
        if ndim > new_axnames0.length then
          new_axnames0 ++ List.replicate (ndim - new_axnames0.length) none
        else new_axnames0
      let axn_insert_index : Int :=
        if axis < 0 then (new_axnames1.length : Int) + 1 + axis else axis
      let new_axnames := pyInsert new_axnames1 axn_insert_index new_axis_name
      .ok ⟨new_data_array, new_axes, new_axnames, [], new_metadata⟩

/-- The self-describing archive written by `save_npz`: the raw grid, the
axis count, the positional axis slots, the side record holding the axis
names and the reduced-axes log, and the metadata mapping. -/
structure NpzArchive where
  data_array : NpArray
  num_axes : Nat
  axisSlots : List (Option (List ℚ))
  axes_names : List (Option String)
  reduced_axes : List ReducedAxis
  metadata : MDict
deriving Repr, DecidableEq

/-- Model of `NumericalData.save_npz`: stores the grid, `len(axes)` as the
axis count, each axis under its positional slot, the names/reduced-axes
side record, and the metadata with every enum member stringified when
`stringify_enums` is set (the metadata is deep-copied first, which is the
identity in this value model). -/
def NumericalData.save_npz (x : NumericalData) (stringify_enums : Bool) : NpzArchive :=
  let metadata := if stringify_enums then map_nested_dict stringifyEnum x.metadata else x.metadata
  ⟨x.data_array, x.axes.length, x.axes, x.axes_names, x.reduced_axes, metadata⟩

/-- Model of `NumericalData.load_npz`: rebuilds a container from the
archive's grid, the `num_axes` positional axis slots, the side record and
the metadata. -/
def NumericalData.load_npz (f : NpzArchive) : NumericalData :=
  let axes := (List.range f.num_axes).map (fun i => f.axisSlots.getD i none)
  ⟨f.data_array, axes, f.axes_names, f.reduced_axes, f.metadata⟩

/-- Per-binding command option overrides (`value_multiplier`, rounding
digit counts, `disable_write`), as stored in `Device.command_options`. -/
structure CommandOptions where
  value_multiplier : Option ℚ
  round_on_read_digits : Option Nat
  round_on_write_digits : Option Nat
  disable_write : Bool
deriving Repr, DecidableEq

/-- Round-half-to-even of a rational to an integer, the semantics of
Python's builtin `round`. -/
def roundHalfEven (q : ℚ) : ℤ :=
  let f := ⌊q⌋
  let r := q - f
  if r < 1 / 2 then f
  else if 1 / 2 < r then f + 1
  else if f % 2 = 0 then f else f + 1

/-- Python `round(val, d)` with `d` decimal digits, idealized over exact
rationals (the floating-point representation error of the Python runtime
is outside this model). -/
def pyRound (q : ℚ) (d : Nat) : ℚ :=
  (roundHalfEven (q * 10 ^ d) : ℚ) / 10 ^ d

/-- Model of `visa_read_value_transform`: multiply by the configured
multiplier if present, then round to the configured digit count if
present. -/
def visa_read_value_transform (val : ℚ) (opts : CommandOptions) : ℚ :=
  let val1 := match opts.value_multiplier with
    | some m => val * m
    | none => val
  match opts.round_on_read_digits with
  | some d => pyRound val1 d
  | none => val1

/-- Model of `visa_write_value_transform`: divide by the configured
multiplier if present, then round to the configured digit count if
present. -/
def visa_write_value_transform (val : ℚ) (opts : CommandOptions) : ℚ :=
  let val1 := match opts.value_multiplier with
    | some m => val / m
    | none => val
  match opts.round_on_write_digits with
  | some d => pyRound val1 d
  | none => val1

/-- Value pipeline of the generated property setter (`visa_setter`,
lines 151-169 of `visadevice.py`), up to the point where the transformed
value is handed to the write converter for conversion to wire text: a
configured `disable_write` raises, otherwise the write transform is
applied when an option record exists for the binding. -/
def visa_setter_value (value : ℚ) (opts : Option CommandOptions) : Except PyErr ℚ :=
  match opts with
  | some o =>
    if o.disable_write then
      .error (.valueError "Writing to this device property has been disabled in your config.")
    else .ok (visa_write_value_transform value o)
  | none => .ok value

/-- Value pipeline of the generated property getter (`visa_getter`,
lines 127-144 of `visadevice.py`) from the point where the wire response
has been through the read converter: the read transform is applied when
an option record exists for the binding. -/
def visa_getter_value (converted : ℚ) (opts : Option CommandOptions) : ℚ :=
  match opts with
  | some o => visa_read_value_transform converted o
  | none => converted

/-- Outcome of one transport read attempt inside the completion-wait
loop: a response, a VISA timeout error, or any other VISA error
(identified by its status code). -/
inductive ReadResult where
  | ok (response : String)
  | visaTimeout
  | visaOther (code : Int)
deriving Repr, DecidableEq

/-- Observable outcome of the completion-wait loop. -/
inductive WaitOutcome where
  | done (response : String)
  | timeout
  | raised (code : Int)
  | diverged
deriving Repr, DecidableEq

/-- Model of the polling loop of `VisaDevice.wait_until_done`
(lines 324-335): at iteration `k`, first fail with `TimeoutError` if a
wall-clock ceiling is configured and the elapsed time exceeds it, then
attempt a read; a successful read ends the wait, a VISA timeout is caught
and the read is retried, and any other VISA error is re-raised. The
transport is modelled by the sequence `reads` of per-attempt outcomes and
the wall clock by `elapsed` (the value of
`time.perf_counter() - start_time` at the top of each iteration); `fuel`
bounds the number of modelled iterations, with `diverged` standing for a
loop that is still running when the fuel runs out. -/
def waitLoop (reads : Nat → ReadResult) (elapsed : Nat → ℚ) (max_wait : Option ℚ) :
    Nat → Nat → WaitOutcome
  | _, 0 => .diverged
  | k, fuel + 1 =>
    if (match max_wait with
        | some w => decide (elapsed k > w)
        | none => false) then
      .timeout
    else
      match reads k with
      | .ok r => .done r
      | .visaTimeout => waitLoop reads elapsed max_wait (k + 1) fuel
      | .visaOther c => .raised c

/-- Model of `VisaDevice.wait_until_done`'s loop from its start
(`max_wait=False` in Python is `none` here). -/
def wait_until_done (reads : Nat → ReadResult) (elapsed : Nat → ℚ)
    (max_wait : Option ℚ) (fuel : Nat) : WaitOutcome :=
  waitLoop reads elapsed max_wait 0 fuel

/-- A driver reference in the device configuration: either a directly
registered class object or a string. A driver string is represented by
its dot-separated components (`"tekvisa.TektronixScope"` is
`["tekvisa", "TektronixScope"]`), so `"." in driver` is a component count
above one and `driver.split(".")` is the component list itself. -/
inductive DriverRef where
  | classObject (name : String)
  | strRef (path : List String)
deriving Repr, DecidableEq

/-- Configured settings of one device id; only the driver reference is
relevant to registry resolution (the remaining settings are passed to the
constructor unchanged). -/
structure DeviceConf where
  driver : Option DriverRef
deriving Repr, DecidableEq

/-- The configuration state consulted by `_connect_device`: the
`devices` table, the names registered in `drivers.classes`, the
allow-listed module prefixes in `drivers.modules`, and the module names
that exist inside the bundled `pylabframe.hw.drivers` package. -/
structure HwConfig where
  devices : List (String × DeviceConf)
  driverClasses : List (List String)
  driverModules : List (List String)
  builtinDriverModules : List String
deriving Repr, DecidableEq

/-- How a driver reference was resolved by `_connect_device`. -/
inductive ResolvedDriver where
  | direct (name : String)
  | registeredClass (name : List String)
  | trustedModuleClass (modulePath className : List String)
  | builtinModuleClass (moduleName : String) (className : List String)
deriving Repr, DecidableEq

/-- The allow-list test of `_connect_device`: a module path is custom when
it equals an allow-listed module or starts with an allow-listed module
followed by a dot (`driver_module == m or driver_module.startswith(m + ".")`). -/
def moduleAllowListed (mods : List (List String)) (driver_module : List String) : Bool :=
  mods.any (fun m => driver_module == m || (m.isPrefixOf driver_module && !(driver_module == m)))

/-- Model of `pylabframe.hw.device._connect_device` (resolution part):
an unconfigured id fails with `KeyError`; a string driver is first looked
up among registered driver classes; a dotless unregistered string fails
with `RuntimeError`; a dotted path whose module is under an allow-listed
prefix is imported and used; any other dotted path is resolved against
the bundled `.drivers` package (`exec(f"from .drivers import {m}")`,
which is a `SyntaxError` for a dotted module name and an `ImportError`
for an unknown bundled module). -/
def connectDevice (cfg : HwConfig) (id : String) (driverArg : Option DriverRef) :
    Except PyErr ResolvedDriver :=
  match cfg.devices.lookup id with
  | none => .error (.keyError id)
  | some dc =>
    let driver := match driverArg with
      | some d => some d
      | none => dc.driver
    match driver with
    | none => .error (.keyError "driver")
    | some (.classObject n) => .ok (.direct n)
    | some (.strRef s) =>
      if cfg.driverClasses.contains s then .ok (.registeredClass s)
      else if s.length < 2 then
        .error (.runtimeError "Device driver class object not registered directly. Device driver strings should include the module from which the driver class should be imported.")
      else
        let driver_module := s.dropLast
        let is_custom_driver := moduleAllowListed cfg.driverModules driver_module
        if is_custom_driver then .ok (.trustedModuleClass driver_module s)
        else if driver_module.length > 1 then .error (.syntaxError "invalid syntax")
        else if cfg.builtinDriverModules.contains (driver_module.getD 0 "") then
          .ok (.builtinModuleClass (driver_module.getD 0 "") s)
        else .error (.importError (driver_module.getD 0 ""))

/-- A container used as concrete test input: a 2x3 grid with two labeled
axes. -/
def sampleX2 : NumericalData :=
  ⟨⟨[2, 3], [1, 2, 3, 4, 5, 6]⟩, [some [10, 20], some [100, 200, 300]],
   [some "time", some "wavelength"], [], .nil⟩

/-- A container used as concrete test input: a 2x2 grid with two labeled
axes. -/
def sampleSq : NumericalData :=
  ⟨⟨[2, 2], [1, 2, 3, 4]⟩, [some [10, 20], some [30, 40]],
   [some "r", some "c"], [], .nil⟩

/-- A nested enum-free metadata mapping used as concrete test input. -/
def sampleMeta : MDict :=
  .cons "a" (.num 3) (.cons "b" (.dict (.cons "c" (.str "x") .nil)) .nil)

/-- A container used as concrete test input: a 1-d grid with one labeled
axis and nested metadata. -/
def sampleX1 : NumericalData :=
  ⟨⟨[2], [1, 2]⟩, [some [10, 20]], [some "x"], [], sampleMeta⟩

/-- A second 1-d container with the same shape as `sampleX1`, with a
non-empty reduced-axes log. -/
def sampleY1 : NumericalData :=
  ⟨⟨[2], [3, 4]⟩, [some [11, 21]], [some "u"], [⟨none, 0, 0, none⟩], .nil⟩

/-- Bound check for one selector against an axis of length `n`: the
condition under which numpy raises no `IndexError` on that axis. -/
def selOKb (n : Nat) : Sel → Bool
  | .int j => decide (j < n)
  | .arr js => js.all (fun j => decide (j < n))
  | _ => true

/-- The data-model invariant on a container's axes: every coordinate
array present at a position within the grid rank has length equal to the
corresponding grid dimension. -/
def NumericalData.wfAxes (x : NumericalData) : Bool :=
  (List.range x.data_array.shape.length).all (fun i =>
    match x.axes.getD i none with
    | some ax => ax.length == x.data_array.shape.getD i 0
    | none => true)

/-! ### Helper lemmas -/

theorem range_map_getD {α : Type} (l : List α) (d : α) :
    (List.range l.length).map (fun i => l.getD i d) = l := by
  induction l with
  | nil => rfl
  | cons a t ih =>
    rw [List.length_cons, List.range_succ_eq_map, List.map_cons, List.map_map]
    simp only [Function.comp_def, List.getD_cons_succ, List.getD_cons_zero]
    rw [ih]

mutual
theorem mapNestedVal_enumFree_id : ∀ (v : MValue), v.enumFree = true →
    mapNestedVal stringifyEnum v = v
  | .str _, _ => rfl
  | .num _, _ => rfl
  | .boolean _, _ => rfl
  | .enumV _ _, h => by simp [MValue.enumFree] at h
  | .list _, _ => rfl
  | .dict entries, h => by
    rw [mapNestedVal, map_nested_dict_enumFree_id entries (by simpa [MValue.enumFree] using h)]

theorem map_nested_dict_enumFree_id : ∀ (d : MDict), d.enumFree = true →
    map_nested_dict stringifyEnum d = d
  | .nil, _ => rfl
  | .cons k v rest, h => by
    have h2 : v.enumFree = true ∧ rest.enumFree = true := by
      simpa [MDict.enumFree, Bool.and_eq_true] using h
    rw [map_nested_dict, mapNestedVal_enumFree_id v h2.1,
      map_nested_dict_enumFree_id rest h2.2]
end

/-! ### Claims -/

/-- C1: the claim states that indexing leaves the parent container's
`reduced_axes` log unchanged and that a child shares no mutable state
with its parent. The code violates this: `__getitem__` takes the
parent's `reduced_axes` list without copying (line 43) and appends the
new entry to it (line 63), so integer indexing grows the parent's own
log, and the child is built around that same list. Evaluated at a
concrete 1-d container with an empty log: after `X.iloc[0]` the parent's
log has one entry and the child's log is equal to it. -/
theorem C1_indexing_mutates_parent_reduced_axes :
    (ilocGetitem sampleX1 [Sel.int 0]).map
        (fun cp => (cp.1.reduced_axes, cp.2.reduced_axes)) =
      .ok ([⟨some "x", 0, 0, some 10⟩], [⟨some "x", 0, 0, some 10⟩]) ∧
    sampleX1.reduced_axes = [] := by decide

/-- C5: for every container whose metadata contains no enumeration
values, loading the archive produced by saving it yields a container
attributewise equal to the original: the grid, the axis list, the axis
names, the reduced-axes log and the metadata all round-trip. -/
theorem C5_save_load_roundtrip (x : NumericalData) (hx : x.metadata.enumFree = true) :
    NumericalData.load_npz (NumericalData.save_npz x true) = x := by
  obtain ⟨da, axes, names, red, meta⟩ := x
  simp only [NumericalData.save_npz, NumericalData.load_npz, if_pos]
  rw [range_map_getD, map_nested_dict_enumFree_id meta hx]

/-- C5 witness: the round-trip theorem applied to a concrete container
with nested, enum-free metadata. -/
theorem C5_save_load_roundtrip_witness :
    sampleX1.metadata.enumFree = true ∧
    NumericalData.load_npz (NumericalData.save_npz sampleX1 true) = sampleX1 :=
  ⟨by decide, C5_save_load_roundtrip sampleX1 (by decide)⟩

/-- C7: with a configured `value_multiplier`, a write divides the value
by the multiplier (then applies any write rounding) before it reaches
the wire-text converter, and a read multiplies the converted wire value
by the multiplier (then applies any read rounding); in particular with
multiplier 2.0, writing 10.0 hands 5.0 to the converter and reading
wire value 5.0 returns 10.0. -/
theorem C7_value_multiplier_transforms :
    (∀ v m : ℚ, visa_write_value_transform v ⟨some m, none, none, false⟩ = v / m) ∧
    (∀ v m : ℚ, visa_read_value_transform v ⟨some m, none, none, false⟩ = v * m) ∧
    (∀ (v m : ℚ) (rd : Option Nat) (d : Nat) (dw : Bool),
      visa_write_value_transform v ⟨some m, rd, some d, dw⟩ = pyRound (v / m) d) ∧
    (∀ (v m : ℚ) (d : Nat) (wd : Option Nat) (dw : Bool),
      visa_read_value_transform v ⟨some m, some d, wd, dw⟩ = pyRound (v * m) d) ∧
    visa_setter_value 10 (some ⟨some 2, none, none, false⟩) = .ok 5 ∧
    visa_getter_value 5 (some ⟨some 2, none, none, false⟩) = 10 := by
  refine ⟨fun v m => rfl, fun v m => rfl, fun v m rd d dw => rfl, fun v m d wd dw => rfl, ?_, ?_⟩
  · show Except.ok ((10 : ℚ) / 2) = Except.ok (5 : ℚ)
    norm_num
  · show (5 : ℚ) * 2 = 10
    norm_num

/-- C9 counterexample: the claim states that an unconfigured id fails
with `UnknownDeviceError` and a dotted driver path outside the
allow-list fails with `UntrustedDriverError`. Neither error class exists
in the code: at a concrete empty configuration the lookup fails with a
plain `KeyError`, and a dotted path outside the (empty) allow-list is
resolved against the bundled drivers package and succeeds rather than
being rejected. -/
theorem C9_registry_errors_counterexample :
    connectDevice ⟨[], [], [], ["tekvisa"]⟩ "esa" none = .error (.keyError "esa") ∧
    connectDevice ⟨[("scope", ⟨some (.strRef ["tekvisa", "TektronixScope"])⟩)], [], [],
        ["tekvisa"]⟩ "scope" none =
      .ok (.builtinModuleClass "tekvisa" ["tekvisa", "TektronixScope"]) := by decide

/-- C9 amended: requesting a device whose id is not configured fails
with `KeyError` (not a dedicated `UnknownDeviceError`), and a dotted
driver path that is not under an allow-listed module prefix is not
rejected: it is resolved against the bundled `.drivers` package,
succeeding when the module exists there and failing with
`SyntaxError`/`ImportError` otherwise — never with a dedicated
`UntrustedDriverError`. -/
theorem C9_registry_resolution_amended (cfg : HwConfig) (id : String)
    (darg : Option DriverRef) :
    (cfg.devices.lookup id = none →
      connectDevice cfg id darg = .error (.keyError id)) ∧
    (∀ dc s, cfg.devices.lookup id = some dc → darg = none →
      dc.driver = some (.strRef s) →
      cfg.driverClasses.contains s = false → 2 ≤ s.length →
      moduleAllowListed cfg.driverModules s.dropLast = false →
      connectDevice cfg id darg = .ok (.builtinModuleClass (s.dropLast.getD 0 "") s) ∨
      connectDevice cfg id darg = .error (.syntaxError "invalid syntax") ∨
      connectDevice cfg id darg = .error (.importError (s.dropLast.getD 0 ""))) := by
  constructor
  · intro h
    unfold connectDevice
    rw [h]
  · intro dc s h1 h2 h3 h4 h5 h6
    subst h2
    have h5' : ¬ s.length < 2 := by omega
    have h4' : s ∉ cfg.driverClasses := by simpa using h4
    by_cases h7 : 1 < s.length - 1
    · right; left
      simp [connectDevice, h1, h3, h4', h5', h6, h7]
    · by_cases h8 : s.dropLast.getD 0 "" ∈ cfg.builtinDriverModules
      · left
        have h8' : s.dropLast[0]?.getD "" ∈ cfg.builtinDriverModules := by
          simpa [List.getD] using h8
        simp [connectDevice, h1, h3, h4', h5', h6, h7, h8']
      · right; right
        have h8' : ¬ s.dropLast[0]?.getD "" ∈ cfg.builtinDriverModules := by
          simpa [List.getD] using h8
        simp [connectDevice, h1, h3, h4', h5', h6, h7, h8']

/-- C9 amended witness: the amended theorem applied at concrete
configurations, covering the unknown-id branch and the
untrusted-dotted-path branch. -/
theorem C9_registry_resolution_amended_witness :
    connectDevice ⟨[], [], [], []⟩ "esa" none = .error (.keyError "esa") ∧
    (connectDevice ⟨[("scope", ⟨some (.strRef ["foo", "Bar"])⟩)], [], [], []⟩ "scope" none =
        .ok (.builtinModuleClass "foo" ["foo", "Bar"]) ∨
      connectDevice ⟨[("scope", ⟨some (.strRef ["foo", "Bar"])⟩)], [], [], []⟩ "scope" none =
        .error (.syntaxError "invalid syntax") ∨
      connectDevice ⟨[("scope", ⟨some (.strRef ["foo", "Bar"])⟩)], [], [], []⟩ "scope" none =
        .error (.importError "foo")) :=
  ⟨(C9_registry_resolution_amended ⟨[], [], [], []⟩ "esa" none).1 (by decide),
   (C9_registry_resolution_amended ⟨[("scope", ⟨some (.strRef ["foo", "Bar"])⟩)], [], [], []⟩
      "scope" none).2 ⟨some (.strRef ["foo", "Bar"])⟩ ["foo", "Bar"]
      (by decide) rfl rfl (by decide) (by decide) (by decide)⟩

/-- C10: the container produced by `NumericalData.stack` always carries
an empty `reduced_axes` log, regardless of the logs of the inputs: the
result is built by the constructor with the `reduced_axes` argument left
at its default. -/
theorem C10_stack_reduced_axes_empty (objs : List NumericalData) (axis : Int)
    (na : Option (List ℚ)) (nn : Option String) (retain : Bool) (r : NumericalData)
    (h : NumericalData.stack objs axis na nn retain = .ok r) : r.reduced_axes = [] := by
  simp only [NumericalData.stack] at h
  split at h
  · simp at h
  · split at h
    · simp at h
    · cases h
      rfl

/-- C10 witness: stacking a single container with a non-empty
reduced-axes log yields a container with an empty log. -/
theorem C10_stack_reduced_axes_empty_witness :
    (⟨⟨[1, 2], [3, 4]⟩, [none, some [11, 21]], [none, some "u"], [],
      .nil⟩ : NumericalData).reduced_axes = [] :=
  C10_stack_reduced_axes_empty [sampleY1] 0 none none false
    ⟨⟨[1, 2], [3, 4]⟩, [none, some [11, 21]], [none, some "u"], [], .nil⟩ (by decide)

theorem waitLoop_skip (reads : Nat → ReadResult) (elapsed : Nat → ℚ) (mw : Option ℚ) :
    ∀ (n k fuel : Nat), (∀ i, i < n → reads (k + i) = .visaTimeout) →
      (∀ i, i ≤ n → ∀ w, mw = some w → elapsed (k + i) ≤ w) → n < fuel →
      waitLoop reads elapsed mw k fuel =
        (match reads (k + n) with
         | .ok r => .done r
         | .visaOther c => .raised c
         | .visaTimeout => waitLoop reads elapsed mw (k + n + 1) (fuel - (n + 1))) := by
  intro n
  induction n with
  | zero =>
    intro k fuel h1 h2 hf
    obtain ⟨f, rfl⟩ : ∃ f, fuel = f + 1 := ⟨fuel - 1, by omega⟩
    conv_lhs => rw [waitLoop.eq_def]
    cases mw with
    | none =>
      cases hr : reads k <;> simp [hr]
    | some w =>
      have hc : decide (elapsed k > w) = false := by
        simp only [decide_eq_false_iff_not, not_lt]
        simpa using h2 0 (le_refl 0) w rfl
      simp only [hc, Bool.false_eq_true, if_false]
      cases hr : reads k <;> simp [hr]
  | succ n ih =>
    intro k fuel h1 h2 hf
    obtain ⟨f, rfl⟩ : ∃ f, fuel = f + 1 := ⟨fuel - 1, by omega⟩
    have h10 : reads k = .visaTimeout := by simpa using h1 0 (Nat.succ_pos n)
    have step := ih (k + 1) f
      (fun i hi => by rw [Nat.add_assoc, Nat.add_comm 1 i]; exact h1 (i + 1) (by omega))
      (fun i hi w hw => by
        rw [Nat.add_assoc, Nat.add_comm 1 i]
        exact h2 (i + 1) (by omega) w hw)
      (by omega)
    have e1 : k + 1 + n = k + (n + 1) := by omega
    have e2 : f - (n + 1) = f + 1 - (n + 1 + 1) := by omega
    rw [e1, e2] at step
    conv_lhs => rw [waitLoop.eq_def]
    cases mw with
    | none =>
      simpa [h10] using step
    | some w =>
      have hc : decide (elapsed k > w) = false := by
        simp only [decide_eq_false_iff_not, not_lt]
        simpa using h2 0 (Nat.zero_le _) w rfl
      simp only [hc, Bool.false_eq_true, if_false]
      simpa [h10] using step

theorem waitLoop_guard (reads : Nat → ReadResult) (elapsed : Nat → ℚ) (w : ℚ) :
    ∀ (n k fuel : Nat), (∀ i, i < n → reads (k + i) = .visaTimeout) →
      (∀ i, i < n → elapsed (k + i) ≤ w) → w < elapsed (k + n) → n < fuel →
      waitLoop reads elapsed (some w) k fuel = .timeout := by
  intro n
  induction n with
  | zero =>
    intro k fuel h1 h2 hg hf
    obtain ⟨f, rfl⟩ : ∃ f, fuel = f + 1 := ⟨fuel - 1, by omega⟩
    rw [waitLoop.eq_def]
    have hc : decide (elapsed k > w) = true := by simpa using hg
    simp only [hc, if_true]
  | succ n ih =>
    intro k fuel h1 h2 hg hf
    obtain ⟨f, rfl⟩ : ∃ f, fuel = f + 1 := ⟨fuel - 1, by omega⟩
    rw [waitLoop.eq_def]
    have hc : decide (elapsed k > w) = false := by
      simp only [decide_eq_false_iff_not, not_lt]
      simpa using h2 0 (Nat.succ_pos n)
    have h10 : reads k = .visaTimeout := by simpa using h1 0 (Nat.succ_pos n)
    simp only [hc, Bool.false_eq_true, if_false, h10]
    exact ih (k + 1) f
      (fun i hi => by rw [Nat.add_assoc, Nat.add_comm 1 i]; exact h1 (i + 1) (by omega))
      (fun i hi => by rw [Nat.add_assoc, Nat.add_comm 1 i]; exact h2 (i + 1) (by omega))
      (by rw [Nat.add_assoc, Nat.add_comm 1 n]; exact hg)
      (by omega)

/-- C8: inside the completion-wait loop, a transport read failing with
the VISA timeout condition is caught and the read retried (a later
successful read still completes the wait), any other transport error
propagates immediately and aborts the wait, and when a wall-clock
ceiling `max_wait` is configured against a transport that always times
out, the loop raises `TimeoutError` instead of looping forever (it
terminates as soon as the observed elapsed time exceeds the ceiling). -/
theorem C8_wait_until_done_behavior (reads : Nat → ReadResult) (elapsed : Nat → ℚ) :
    (∀ (mw : Option ℚ) (n fuel : Nat) (r : String),
      (∀ i, i < n → reads i = .visaTimeout) → reads n = .ok r →
      (∀ i, i ≤ n → ∀ w, mw = some w → elapsed i ≤ w) → n < fuel →
      wait_until_done reads elapsed mw fuel = .done r) ∧
    (∀ (mw : Option ℚ) (n fuel : Nat) (c : Int),
      (∀ i, i < n → reads i = .visaTimeout) → reads n = .visaOther c →
      (∀ i, i ≤ n → ∀ w, mw = some w → elapsed i ≤ w) → n < fuel →
      wait_until_done reads elapsed mw fuel = .raised c) ∧
    (∀ (w : ℚ) (N fuel : Nat),
      (∀ i, reads i = .visaTimeout) → w < elapsed N → N < fuel →
      wait_until_done reads elapsed (some w) fuel = .timeout) := by
  refine ⟨?_, ?_, ?_⟩
  · intro mw n fuel r h1 h2 h3 hf
    unfold wait_until_done
    rw [waitLoop_skip reads elapsed mw n 0 fuel (by simpa using h1) (by simpa using h3) hf]
    have h2' : reads (0 + n) = .ok r := by simpa using h2
    rw [h2']
  · intro mw n fuel c h1 h2 h3 hf
    unfold wait_until_done
    rw [waitLoop_skip reads elapsed mw n 0 fuel (by simpa using h1) (by simpa using h3) hf]
    have h2' : reads (0 + n) = .visaOther c := by simpa using h2
    rw [h2']
  · intro w N fuel h1 hN hf
    have hex : ∃ i, w < elapsed i := ⟨N, hN⟩
    have hspec := Nat.find_spec hex
    have hmin := fun i (hi : i < Nat.find hex) => Nat.find_min hex hi
    exact waitLoop_guard reads elapsed w (Nat.find hex) 0 fuel
      (fun i _ => by simpa using h1 i)
      (fun i hi => by
        have := hmin i hi
        simpa [not_lt] using this)
      (by simpa using hspec)
      (by have : Nat.find hex ≤ N := Nat.find_le hN; omega)

/-- C8 witness: the behavior theorem applied to concrete transports:
two timeouts then a response is retried to completion, two timeouts then
another VISA error aborts with that error, and an always-timing-out
transport under a ceiling of 3 raises the timeout failure. -/
theorem C8_wait_until_done_behavior_witness :
    wait_until_done (fun i => if i < 2 then .visaTimeout else .ok "1") (fun _ => 0) none 5 =
      .done "1" ∧
    wait_until_done (fun i => if i < 2 then .visaTimeout else .visaOther 7) (fun _ => 0) none 5 =
      .raised 7 ∧
    wait_until_done (fun _ => .visaTimeout) (fun i => i) (some 3) 6 = .timeout :=
  ⟨(C8_wait_until_done_behavior (fun i => if i < 2 then .visaTimeout else .ok "1")
      (fun _ => 0)).1 none 2 5 "1" (by decide) (by decide)
      (fun i hi w hw => nomatch hw) (by decide),
   (C8_wait_until_done_behavior (fun i => if i < 2 then .visaTimeout else .visaOther 7)
      (fun _ => 0)).2.1 none 2 5 7 (by decide) (by decide)
      (fun i hi w hw => nomatch hw) (by decide),
   (C8_wait_until_done_behavior (fun _ => .visaTimeout) (fun i => i)).2.2 3 4 6
      (fun i => rfl) (by norm_num) (by decide)⟩

/-- C4: indexing fails with `IndexError` when the index expression
contains more than one ellipsis, or when after ellipsis expansion (which
includes the implicitly appended trailing ellipsis of a too-short
expression) the selector count does not equal the grid's rank — that is,
when the non-ellipsis selector count exceeds the rank. Both failures are
raised by the grid indexing itself (`self.parent.data_array.__getitem__`
runs first, at line 18), before the code's own later `ValueError`
checks can trigger. -/
theorem C4_malformed_index_raises_index_error (x : NumericalData) (item : List Sel)
    (h : 2 ≤ countEllipsis item ∨ x.data_array.shape.length < countNonEllipsis item) :
    ∃ msg, ilocGetitem x item = .error (.indexError msg) := by
  unfold ilocGetitem
  by_cases h1 : countEllipsis item > 1
  · refine ⟨"an index can only have a single ellipsis", ?_⟩
    simp [npGetItem, h1]
  · have h2 : countNonEllipsis item > x.data_array.shape.length := by
      rcases h with ha | hb
      · omega
      · exact hb
    refine ⟨"too many indices for array", ?_⟩
    simp [npGetItem, h1, h2]

/-- C4 witness: a double ellipsis and an over-long selector tuple on a
concrete 1-d container both fail with `IndexError`. -/
theorem C4_malformed_index_raises_index_error_witness :
    (2 ≤ countEllipsis [Sel.ellipsis, Sel.ellipsis] ∨
      sampleX1.data_array.shape.length < countNonEllipsis [Sel.ellipsis, Sel.ellipsis]) ∧
    (∃ msg, ilocGetitem sampleX1 [Sel.ellipsis, Sel.ellipsis] = .error (.indexError msg)) ∧
    (∃ msg, ilocGetitem sampleX1 [Sel.int 0, Sel.int 0] = .error (.indexError msg)) :=
  ⟨Or.inl (by decide),
   C4_malformed_index_raises_index_error sampleX1 [Sel.ellipsis, Sel.ellipsis] (Or.inl (by decide)),
   C4_malformed_index_raises_index_error sampleX1 [Sel.int 0, Sel.int 0] (Or.inr (by decide))⟩

theorem countEllipsis_cons_other (s : Sel) (rest : List Sel) (hs : s.isEllipsis = false) :
    countEllipsis (s :: rest) = countEllipsis rest := by
  simp [countEllipsis, List.filter_cons, hs]

theorem countSplit (l : List Sel) :
    countNonEllipsis l + countEllipsis l = l.length := by
  induction l with
  | nil => rfl
  | cons s rest ih =>
    cases hs : s.isEllipsis <;>
      simp [countEllipsis, countNonEllipsis, List.filter_cons, hs] at ih ⊢ <;> omega

theorem expandAt_of_no_ellipsis : ∀ (l : List Sel) (pad : Nat), countEllipsis l = 0 →
    expandAt pad l = l ++ List.replicate pad sliceAll := by
  intro l
  induction l with
  | nil => intro pad _; rfl
  | cons s rest ih =>
    intro pad h
    cases s with
    | ellipsis => simp [countEllipsis, List.filter_cons, Sel.isEllipsis] at h
    | int i =>
      have h' : countEllipsis rest = 0 := by
        simpa [countEllipsis_cons_other, Sel.isEllipsis] using h
      simp [expandAt, ih pad h']
    | slice a b =>
      have h' : countEllipsis rest = 0 := by
        simpa [countEllipsis_cons_other, Sel.isEllipsis] using h
      simp [expandAt, ih pad h']
    | arr js =>
      have h' : countEllipsis rest = 0 := by
        simpa [countEllipsis_cons_other, Sel.isEllipsis] using h
      simp [expandAt, ih pad h']

theorem expandAt_append_ellipsis : ∀ (l : List Sel) (pad : Nat), countEllipsis l = 0 →
    expandAt pad (l ++ [Sel.ellipsis]) = l ++ List.replicate pad sliceAll := by
  intro l
  induction l with
  | nil => intro pad _; simp [expandAt]
  | cons s rest ih =>
    intro pad h
    cases s with
    | ellipsis => simp [countEllipsis, List.filter_cons, Sel.isEllipsis] at h
    | int i =>
      have h' : countEllipsis rest = 0 := by
        simpa [countEllipsis_cons_other, Sel.isEllipsis] using h
      simp [expandAt, ih pad h']
    | slice a b =>
      have h' : countEllipsis rest = 0 := by
        simpa [countEllipsis_cons_other, Sel.isEllipsis] using h
      simp [expandAt, ih pad h']
    | arr js =>
      have h' : countEllipsis rest = 0 := by
        simpa [countEllipsis_cons_other, Sel.isEllipsis] using h
      simp [expandAt, ih pad h']

theorem length_expandAt_one : ∀ (l : List Sel) (pad : Nat), countEllipsis l = 1 →
    (expandAt pad l).length = (l.length - 1) + pad := by
  intro l
  induction l with
  | nil => intro pad h; simp [countEllipsis] at h
  | cons s rest ih =>
    intro pad h
    cases s with
    | ellipsis =>
      have h' : countEllipsis rest = 0 := by
        simpa [countEllipsis, List.filter_cons, Sel.isEllipsis] using h
      simp [expandAt, expandAt_of_no_ellipsis]
      omega
    | int i =>
      have h' : countEllipsis rest = 1 := by
        simpa [countEllipsis_cons_other, Sel.isEllipsis] using h
      have hne : 1 ≤ rest.length := by
        have := countSplit rest
        omega
      simp [expandAt, ih pad h']
      omega
    | slice a b =>
      have h' : countEllipsis rest = 1 := by
        simpa [countEllipsis_cons_other, Sel.isEllipsis] using h
      have hne : 1 ≤ rest.length := by
        have := countSplit rest
        omega
      simp [expandAt, ih pad h']
      omega
    | arr js =>
      have h' : countEllipsis rest = 1 := by
        simpa [countEllipsis_cons_other, Sel.isEllipsis] using h
      have hne : 1 ≤ rest.length := by
        have := countSplit rest
        omega
      simp [expandAt, ih pad h']
      omega

theorem length_expandSels (ndim : Nat) (item : List Sel)
    (h1 : countEllipsis item ≤ 1) (h2 : countNonEllipsis item ≤ ndim) :
    (expandSels ndim item).length = ndim := by
  have hs := countSplit item
  interval_cases h0 : countEllipsis item
  · rw [expandSels, expandAt_of_no_ellipsis item _ h0]
    simp
    omega
  · rw [expandSels, length_expandAt_one item _ h0]
    omega

theorem countEllipsis_append (l1 l2 : List Sel) :
    countEllipsis (l1 ++ l2) = countEllipsis l1 + countEllipsis l2 := by
  simp [countEllipsis, List.filter_append]

theorem ilocNormalize_eq_expandSels (ndim : Nat) (item : List Sel)
    (h1 : countEllipsis item ≤ 1) (h2 : countNonEllipsis item ≤ ndim) :
    ilocNormalize ndim item = .ok (expandSels ndim item) := by
  have hs := countSplit item
  by_cases hc : item.length < ndim ∧ countEllipsis item = 0
  case pos =>
    obtain ⟨hlen, h0⟩ := hc
    have hne : countNonEllipsis item = item.length := by omega
    have ha : countEllipsis (item ++ [Sel.ellipsis]) = 1 := by
      rw [countEllipsis_append]
      rw [h0]
      rfl
    have hb : (item ++ [Sel.ellipsis]).length - 1 = item.length := by
      simp
    simp only [ilocNormalize, if_pos (And.intro hlen h0), ha, hb,
      expandAt_append_ellipsis item (ndim - item.length) h0]
    have hl2 : (item ++ List.replicate (ndim - item.length) sliceAll).length = ndim := by
      simp
      omega
    simp [hl2, expandSels, hne, expandAt_of_no_ellipsis item (ndim - item.length) h0]
  case neg =>
    by_cases h0 : countEllipsis item = 0
    · have hlen : ndim ≤ item.length := by
        rcases Nat.lt_or_ge item.length ndim with hl | hg
        · exact absurd (And.intro hl h0) hc
        · exact hg
      have heq : item.length = ndim := by omega
      simp only [ilocNormalize, if_neg hc, h0]
      rw [expandSels, show ndim - countNonEllipsis item = 0 from by omega,
        expandAt_of_no_ellipsis item 0 h0]
      simp [h0, heq]
    · have h1' : countEllipsis item = 1 := by omega
      have hne : countNonEllipsis item = item.length - 1 := by omega
      have hl3 : (expandAt (ndim - (item.length - 1)) item).length = ndim := by
        rw [length_expandAt_one item _ h1']
        have : 1 ≤ item.length := by
          have := List.length_filter_le Sel.isEllipsis item
          rw [show (item.filter Sel.isEllipsis).length = countEllipsis item from rfl] at this
          omega
        omega
      simp only [ilocNormalize, if_neg hc, h1', hl3]
      rw [expandSels, hne]
      simp [h1', hl3]

theorem selChoices_ok_selOKb (n : Nat) (sel : Sel) (ch : List Nat)
    (h : selChoices n sel = .ok ch) : selOKb n sel = true := by
  cases sel with
  | int i =>
    by_cases hi : i < n
    · simp [selOKb, hi]
    · simp [selChoices, hi] at h
  | slice a b => rfl
  | arr js =>
    by_cases hj : js.all (fun j => decide (j < n)) = true
    · simpa [selOKb] using hj
    · simp [selChoices, hj] at h
  | ellipsis => rfl

theorem seqChoices_ok_spec : ∀ (s : List Nat) (sels : List Sel)
    (pairs : List (Sel × List Nat)), seqChoices s sels = .ok pairs →
    pairs.map Prod.fst = sels ∧ sels.length = s.length ∧
    (∀ k, k < sels.length → selOKb (s.getD k 0) (sels.getD k sliceAll) = true) := by
  intro s
  induction s with
  | nil =>
    intro sels pairs h
    cases sels with
    | nil =>
      cases h
      exact ⟨rfl, rfl, fun k hk => absurd hk (by simp)⟩
    | cons a t => simp [seqChoices] at h
  | cons n s ih =>
    intro sels pairs h
    cases sels with
    | nil => simp [seqChoices] at h
    | cons sel rest =>
      simp only [seqChoices] at h
      cases hch : selChoices n sel with
      | error e => rw [hch] at h; simp at h
      | ok ch =>
        rw [hch] at h
        cases hrec : seqChoices s rest with
        | error e => rw [hrec] at h; simp at h
        | ok tail =>
          rw [hrec] at h
          cases h
          obtain ⟨hfst, hlen, hbd⟩ := ih rest tail hrec
          refine ⟨by simp [hfst], by simp [hlen], ?_⟩
          intro k hk
          cases k with
          | zero =>
            simpa using selChoices_ok_selOKb n sel ch hch
          | succ k =>
            simpa using hbd k (by simpa using hk)

theorem npGetItem_ok_elim (a : NpArray) (item : List Sel) (sub : NpArray)
    (h : npGetItem a item = .ok sub) :
    countEllipsis item ≤ 1 ∧ countNonEllipsis item ≤ a.shape.length ∧
    ∃ pairs, seqChoices a.shape (expandSels a.shape.length item) = .ok pairs ∧
      npGather a pairs = .ok sub := by
  by_cases h1 : countEllipsis item > 1
  · simp [npGetItem, h1] at h
  · by_cases h2 : countNonEllipsis item > a.shape.length
    · simp [npGetItem, h1, h2] at h
    · simp only [npGetItem, h1, h2, if_false] at h
      split at h
      · simp at h
      · rename_i pairs hsq
        exact ⟨by omega, by omega, pairs, hsq, h⟩

theorem filter_arr_replicate (pad : Nat) :
    (List.replicate pad sliceAll).filter Sel.isArr = [] := by
  induction pad with
  | zero => rfl
  | succ n ih =>
    rw [List.replicate_succ, List.filter_cons]
    simp [show Sel.isArr sliceAll = false from rfl, ih]

theorem countArr_expandAt : ∀ (l : List Sel) (pad : Nat),
    ((expandAt pad l).filter Sel.isArr).length = (l.filter Sel.isArr).length := by
  intro l
  induction l with
  | nil => intro pad; simp [expandAt, filter_arr_replicate]
  | cons s rest ih =>
    intro pad
    cases s with
    | ellipsis =>
      simp [expandAt, List.filter_append, filter_arr_replicate, List.filter_cons, Sel.isArr]
    | int i => simp [expandAt, List.filter_cons, Sel.isArr, ih]
    | slice a b => simp [expandAt, List.filter_cons, Sel.isArr, ih]
    | arr js => simp [expandAt, List.filter_cons, Sel.isArr, ih]

theorem count_nonInt_split (l : List Sel) :
    (l.filter (fun s => !s.isInt)).length =
      (l.filter Sel.isArr).length + (l.filter (fun s => !s.isAdvanced)).length := by
  induction l with
  | nil => rfl
  | cons s rest ih =>
    cases s <;>
      simp [List.filter_cons, Sel.isInt, Sel.isArr, Sel.isAdvanced] at ih ⊢ <;> omega

theorem length_advShape (pairs : List (Sel × List Nat)) (L : Nat) :
    (advShape pairs L).length = (advSliceDims pairs).length + 1 := by
  unfold advShape
  split
  · have h := congrArg List.length
      (List.take_append_drop ((advPositions (pairs.map (fun p => p.1))).headD 0)
        (advSliceDims pairs))
    rw [List.length_append] at h
    simp only [List.length_append, List.length_cons]
    omega
  · simp

theorem npGather_rank (a : NpArray) (pairs : List (Sel × List Nat)) (sub : NpArray)
    (harr : ((pairs.map (fun p => p.1)).filter Sel.isArr).length ≤ 1)
    (h : npGather a pairs = .ok sub) :
    sub.shape.length = countNonInt (pairs.map (fun p => p.1)) := by
  by_cases ha : pairs.any (fun p => p.1.isArr) = true
  · simp only [npGather] at h
    rw [if_pos ha] at h
    cases hb : broadcastLen (pairs.filterMap (fun p =>
        match p.1 with
        | .arr js => some js
        | _ => none)) with
    | none => rw [hb] at h; simp at h
    | some L =>
      rw [hb] at h
      cases h
      have hge : 1 ≤ ((pairs.map (fun p => p.1)).filter Sel.isArr).length := by
        obtain ⟨p, hp, hparr⟩ := List.any_eq_true.mp ha
        have hm : p.1 ∈ (pairs.map (fun q => q.1)).filter Sel.isArr :=
          List.mem_filter.mpr ⟨List.mem_map_of_mem _ hp, hparr⟩
        exact List.length_pos.mpr (List.ne_nil_of_mem hm)

      have hsd : (advSliceDims pairs).length =
          ((pairs.map (fun p => p.1)).filter (fun s => !s.isAdvanced)).length := by
        simp [advSliceDims, List.filter_map, Function.comp_def]
      have hsplit := count_nonInt_split (pairs.map (fun p => p.1))
      rw [length_advShape]
      simp only [countNonInt]
      omega
  · simp only [npGather] at h
    rw [if_neg ha] at h
    cases h
    simp only [countNonInt, List.filter_map, List.length_map, Function.comp_def]

theorem wfAxes_spec (x : NumericalData) (hwf : x.wfAxes = true) :
    ∀ i, i < x.data_array.shape.length → ∀ ax, x.axes.getD i none = some ax →
      ax.length = x.data_array.shape.getD i 0 := by
  intro i hi ax hax
  have hall := List.all_eq_true.mp hwf i (List.mem_range.mpr hi)
  rw [hax] at hall
  simpa using hall

theorem axvOf_int_value (axes : List (Option (List ℚ))) (i0 j : Nat)
    (v : Option AxVal) (hv : axvOf axes i0 (.int j) = .ok v) :
    scalarOf v = (axes.getD i0 none).map (fun ax => ax.getD j 0) := by
  unfold axvOf at hv
  cases hx : axes.getD i0 none with
  | none =>
    rw [hx] at hv
    cases hv
    rfl
  | some ax =>
    rw [hx] at hv
    by_cases hj : j < ax.length
    · simp only [axApply, hj, dif_pos, Except.map] at hv
      cases hv
      simp only [scalarOf, Option.map]
      rw [List.getD_eq_get ax 0 hj]
    · simp [axApply, hj, Except.map] at hv

theorem ilocLoop_ok (axes : List (Option (List ℚ))) (names : List (Option String)) :
    ∀ (sels : List Sel) (i0 : Nat),
    (∀ k, k < sels.length → ∀ ax, axes.getD (i0 + k) none = some ax →
      selOKb ax.length (sels.getD k sliceAll) = true) →
    ∃ out, ilocLoop axes names sels i0 = .ok out := by
  intro sels
  induction sels with
  | nil => intro i0 _; exact ⟨([], [], []), rfl⟩
  | cons sel rest ih =>
    intro i0 h
    have hv : ∃ v, axvOf axes i0 sel = .ok v := by
      unfold axvOf
      cases hx : axes.getD i0 none with
      | none => exact ⟨none, rfl⟩
      | some ax =>
        have hOK : selOKb ax.length sel = true := by
          have := h 0 (by simp) ax (by simpa using hx)
          simpa using this
        cases sel with
        | int j =>
          have hj : j < ax.length := by simpa [selOKb] using hOK
          exact ⟨some (.scalar (ax.get ⟨j, hj⟩)), by simp [axApply, hj, Except.map]⟩
        | slice a b =>
          exact ⟨some (.arr ((sliceIdxs ax.length a b).map (fun j => ax.getD j 0))),
            by simp [axApply, Except.map]⟩
        | arr js =>
          have hj : js.all (fun j => decide (j < ax.length)) = true := by
            simpa [selOKb] using hOK
          exact ⟨some (.arr (js.map (fun j => ax.getD j 0))), by simp [axApply, hj, Except.map]⟩
        | ellipsis => exact ⟨some (.arr ax), by simp [axApply, Except.map]⟩
    obtain ⟨v, hv⟩ := hv
    obtain ⟨⟨sa, sn, ra⟩, hrest⟩ := ih (i0 + 1) (fun k hk ax hx => by
      have e : i0 + 1 + k = i0 + (k + 1) := by omega
      rw [e] at hx
      have := h (k + 1) (by simpa using Nat.succ_lt_succ hk) ax hx
      simpa using this)
    cases sel with
    | int j =>
      refine ⟨(sa, sn, ⟨names.getD i0 none, i0, j, scalarOf v⟩ :: ra), ?_⟩
      simp [ilocLoop, hv, hrest]
    | slice a b =>
      refine ⟨(arrOf v :: sa,
        if i0 < names.length then names.getD i0 none :: sn else sn, ra), ?_⟩
      simp [ilocLoop, hv, hrest]
    | arr js =>
      refine ⟨(arrOf v :: sa,
        if i0 < names.length then names.getD i0 none :: sn else sn, ra), ?_⟩
      simp [ilocLoop, hv, hrest]
    | ellipsis =>
      refine ⟨(arrOf v :: sa,
        if i0 < names.length then names.getD i0 none :: sn else sn, ra), ?_⟩
      simp [ilocLoop, hv, hrest]

theorem ilocLoop_reduced (axes : List (Option (List ℚ))) (names : List (Option String)) :
    ∀ (sels : List Sel) (i0 : Nat) (sa : List (Option (List ℚ)))
      (sn : List (Option String)) (ra : List ReducedAxis),
    ilocLoop axes names sels i0 = .ok (sa, sn, ra) →
    (∀ e, e ∈ ra → i0 ≤ e.axis ∧ e.axis < i0 + sels.length) ∧
    (∀ p, p < sels.length →
      (∀ j, sels.getD p sliceAll = .int j →
        ra.countP (fun e => e.axis == i0 + p) = 1 ∧
        ∃ e, e ∈ ra ∧ e.axis = i0 + p ∧ e.index = j ∧
          e.axis_name = names.getD (i0 + p) none ∧
          e.value = (axes.getD (i0 + p) none).map (fun ax => ax.getD j 0)) ∧
      ((sels.getD p sliceAll).isInt = false →
        ra.countP (fun e => e.axis == i0 + p) = 0)) := by
  intro sels
  induction sels with
  | nil =>
    intro i0 sa sn ra h
    cases h
    exact ⟨fun e he => absurd he (by simp), fun p hp => absurd hp (by simp)⟩
  | cons sel rest ih =>
    intro i0 sa sn ra h
    simp only [ilocLoop] at h
    cases hv : axvOf axes i0 sel with
    | error e => rw [hv] at h; simp at h
    | ok v =>
      rw [hv] at h
      cases hrest : ilocLoop axes names rest (i0 + 1) with
      | error e => rw [hrest] at h; simp at h
      | ok out =>
        obtain ⟨sa', sn', ra'⟩ := out
        rw [hrest] at h
        obtain ⟨hrange', hprop'⟩ := ih (i0 + 1) sa' sn' ra' hrest
        cases sel with
        | int j =>
          cases h
          constructor
          · intro e he
            rcases List.mem_cons.mp he with rfl | hmem
            · simp
            · have := hrange' e hmem
              refine ⟨by omega, ?_⟩
              simp only [List.length_cons]
              omega
          · intro p hp
            cases p with
            | zero =>
              constructor
              · intro j' hj'
                have hjj : j = j' := by simpa using hj'
                subst hjj
                constructor
                · rw [List.countP_cons]
                  have hz : ra'.countP (fun e => e.axis == i0 + 0) = 0 := by
                    rw [List.countP_eq_zero]
                    intro e he
                    have := hrange' e he
                    simp only [beq_iff_eq]
                    omega
                  rw [hz]
                  simp
                · refine ⟨⟨names.getD i0 none, i0, j, scalarOf v⟩, by simp, by simp, rfl,
                    by simp, ?_⟩
                  simpa using axvOf_int_value axes i0 j v hv
              · intro hfalse
                simp [Sel.isInt] at hfalse
            | succ p =>
              have hp' : p < rest.length := by simpa using hp
              have hshift : i0 + (p + 1) = i0 + 1 + p := by omega
              obtain ⟨hint, hnon⟩ := hprop' p hp'
              constructor
              · intro j' hj'
                have hj2 : rest.getD p sliceAll = .int j' := by simpa using hj'
                obtain ⟨hcount, e, hem, hax, hidx, hnm, hval⟩ := hint j' hj2
                constructor
                · rw [List.countP_cons, hshift, hcount]
                  have hne : ¬ ((⟨names.getD i0 none, i0, j, scalarOf v⟩ : ReducedAxis).axis
                      == i0 + 1 + p) = true := by
                    simp
                    omega
                  simp [hne]
                · exact ⟨e, List.mem_cons_of_mem _ hem, by rw [hshift]; exact hax, hidx,
                    by rw [hshift]; exact hnm, by rw [hshift]; exact hval⟩
              · intro hfalse
                have hf2 : (rest.getD p sliceAll).isInt = false := by simpa using hfalse
                rw [List.countP_cons, hshift, hnon hf2]
                have hne : ¬ ((⟨names.getD i0 none, i0, j, scalarOf v⟩ : ReducedAxis).axis
                    == i0 + 1 + p) = true := by
                  simp
                  omega
                simp [hne]
        | slice a b =>
          cases h
          constructor
          · intro e he
            have := hrange' e he
            refine ⟨by omega, ?_⟩
            simp only [List.length_cons]
            omega
          · intro p hp
            cases p with
            | zero =>
              constructor
              · intro j' hj'
                simp at hj'
              · intro _
                rw [List.countP_eq_zero]
                intro e he
                have := hrange' e he
                simp only [beq_iff_eq]
                omega
            | succ p =>
              have hp' : p < rest.length := by simpa using hp
              have hshift : i0 + (p + 1) = i0 + 1 + p := by omega
              obtain ⟨hint, hnon⟩ := hprop' p hp'
              constructor
              · intro j' hj'
                have hj2 : rest.getD p sliceAll = .int j' := by simpa using hj'
                obtain ⟨hcount, e, hem, hax, hidx, hnm, hval⟩ := hint j' hj2
                exact ⟨by rw [hshift]; exact hcount, e, hem, by rw [hshift]; exact hax, hidx,
                  by rw [hshift]; exact hnm, by rw [hshift]; exact hval⟩
              · intro hfalse
                have hf2 : (rest.getD p sliceAll).isInt = false := by simpa using hfalse
                rw [hshift]
                exact hnon hf2
        | arr js =>
          cases h
          constructor
          · intro e he
            have := hrange' e he
            refine ⟨by omega, ?_⟩
            simp only [List.length_cons]
            omega
          · intro p hp
            cases p with
            | zero =>
              constructor
              · intro j' hj'
                simp at hj'
              · intro _
                rw [List.countP_eq_zero]
                intro e he
                have := hrange' e he
                simp only [beq_iff_eq]
                omega
            | succ p =>
              have hp' : p < rest.length := by simpa using hp
              have hshift : i0 + (p + 1) = i0 + 1 + p := by omega
              obtain ⟨hint, hnon⟩ := hprop' p hp'
              constructor
              · intro j' hj'
                have hj2 : rest.getD p sliceAll = .int j' := by simpa using hj'
                obtain ⟨hcount, e, hem, hax, hidx, hnm, hval⟩ := hint j' hj2
                exact ⟨by rw [hshift]; exact hcount, e, hem, by rw [hshift]; exact hax, hidx,
                  by rw [hshift]; exact hnm, by rw [hshift]; exact hval⟩
              · intro hfalse
                have hf2 : (rest.getD p sliceAll).isInt = false := by simpa using hfalse
                rw [hshift]
                exact hnon hf2
        | ellipsis =>
          cases h
          constructor
          · intro e he
            have := hrange' e he
            refine ⟨by omega, ?_⟩
            simp only [List.length_cons]
            omega
          · intro p hp
            cases p with
            | zero =>
              constructor
              · intro j' hj'
                simp at hj'
              · intro _
                rw [List.countP_eq_zero]
                intro e he
                have := hrange' e he
                simp only [beq_iff_eq]
                omega
            | succ p =>
              have hp' : p < rest.length := by simpa using hp
              have hshift : i0 + (p + 1) = i0 + 1 + p := by omega
              obtain ⟨hint, hnon⟩ := hprop' p hp'
              constructor
              · intro j' hj'
                have hj2 : rest.getD p sliceAll = .int j' := by simpa using hj'
                obtain ⟨hcount, e, hem, hax, hidx, hnm, hval⟩ := hint j' hj2
                exact ⟨by rw [hshift]; exact hcount, e, hem, by rw [hshift]; exact hax, hidx,
                  by rw [hshift]; exact hnm, by rw [hshift]; exact hval⟩
              · intro hfalse
                have hf2 : (rest.getD p sliceAll).isInt = false := by simpa using hfalse
                rw [hshift]
                exact hnon hf2

/-- C2 counterexample: the rank clause of the claim fails as soon as two
index arrays appear. On the 2x2 container `sampleSq`, the expression
`[[0,1], [0,1]]` has no ellipsis and exactly rank-many selectors (so it is
within the claim's scope), `X.iloc[I]` succeeds — numpy broadcasts the two
arrays into a single dimension, selecting the diagonal — and the child has
rank `1`, while the expression has `2` non-integer selectors. -/
theorem C2_iloc_rank_counterexample :
    countEllipsis [Sel.arr [0, 1], Sel.arr [0, 1]] ≤ 1 ∧
    (expandSels sampleSq.data_array.shape.length [Sel.arr [0, 1], Sel.arr [0, 1]]).length =
      sampleSq.data_array.shape.length ∧
    sampleSq.wfAxes = true ∧
    (ilocGetitem sampleSq [Sel.arr [0, 1], Sel.arr [0, 1]]).map
      (fun cp => (cp.1.data_array, cp.1.data_array.shape.length)) =
      .ok (⟨[2], [1, 4]⟩, 1) ∧
    countNonInt (expandSels sampleSq.data_array.shape.length
      [Sel.arr [0, 1], Sel.arr [0, 1]]) = 2 := by
  decide

/-- C2 (amended): for a valid multi-axis index expression `I` (at most one
ellipsis, selector count after expansion equal to the rank — both implied
here by the success of the grid indexing itself) containing at most one
index-array selector, on a container whose axes satisfy the data-model
invariant, `X.iloc[I]` succeeds, its samples grid is exactly
`X.samples[I]`, and its rank equals the number of non-integer selectors in
the expanded expression. (With two or more index arrays numpy broadcasts
them into a single dimension and the rank clause fails, as the
counterexample above shows.) -/
theorem C2_iloc_elementwise_and_rank (x : NumericalData) (item : List Sel) (sub : NpArray)
    (hwf : x.wfAxes = true)
    (harr : (item.filter Sel.isArr).length ≤ 1)
    (hok : npGetItem x.data_array item = .ok sub) :
    ∃ c pAfter, ilocGetitem x item = .ok (c, pAfter) ∧
      c.data_array = sub ∧
      c.data_array.shape.length =
        countNonInt (expandSels x.data_array.shape.length item) := by
  obtain ⟨hell, hne, pairs, hsq, hg⟩ := npGetItem_ok_elim x.data_array item sub hok
  obtain ⟨hfst, hlen, hbd⟩ := seqChoices_ok_spec x.data_array.shape _ pairs hsq
  have hnorm := ilocNormalize_eq_expandSels x.data_array.shape.length item hell hne
  have hsel : ∀ k, k < (expandSels x.data_array.shape.length item).length →
      ∀ ax, x.axes.getD (0 + k) none = some ax →
      selOKb ax.length ((expandSels x.data_array.shape.length item).getD k sliceAll) = true := by
    intro k hk ax hax
    have hk2 : k < x.data_array.shape.length := by rw [← hlen]; exact hk
    have hwfk := wfAxes_spec x hwf k hk2 ax (by simpa using hax)
    rw [hwfk]
    exact hbd k hk
  obtain ⟨⟨sa, sn, ra⟩, hloop⟩ :=
    ilocLoop_ok x.axes x.axes_names (expandSels x.data_array.shape.length item) 0 hsel
  refine ⟨⟨sub, sa, sn, x.reduced_axes ++ ra, x.metadata⟩,
    { x with reduced_axes := x.reduced_axes ++ ra }, ?_, rfl, ?_⟩
  · simp only [ilocGetitem, hok, hnorm, hloop]
  · have harr2 : ((pairs.map (fun p => p.1)).filter Sel.isArr).length ≤ 1 := by
      rw [hfst, expandSels, countArr_expandAt]
      exact harr
    rw [npGather_rank x.data_array pairs sub harr2 hg, hfst]

/-- C2 witness: the amended theorem applied to a concrete 2x3 container
indexed with a bare integer: the child grid is the selected row and the
rank drops from 2 to 1 (one non-integer selector after expansion). -/
theorem C2_iloc_elementwise_and_rank_witness :
    sampleX2.wfAxes = true ∧
    ([Sel.int 1].filter Sel.isArr).length ≤ 1 ∧
    npGetItem sampleX2.data_array [Sel.int 1] = .ok ⟨[3], [4, 5, 6]⟩ ∧
    (∃ c pAfter, ilocGetitem sampleX2 [Sel.int 1] = .ok (c, pAfter) ∧
      c.data_array = (⟨[3], [4, 5, 6]⟩ : NpArray) ∧
      c.data_array.shape.length =
        countNonInt (expandSels sampleX2.data_array.shape.length [Sel.int 1])) :=
  ⟨by decide, by decide, by decide,
   C2_iloc_elementwise_and_rank sampleX2 [Sel.int 1] ⟨[3], [4, 5, 6]⟩ (by decide) (by decide)
     (by decide)⟩

/-- C3: when indexing succeeds, the entries appended to the result's
reduced-axes log are exactly one per bare-integer selector: a selector
`int j` at (expanded) position `p` contributes exactly one entry whose
position field is `p`, whose index field is `j`, whose name is the axis
name at `p` (if any), and whose collapsed value is the coordinate that
existed at index `j` of axis `p` — or `None` if that axis was unlabeled;
slices, ellipsis-expanded full slices, and index arrays contribute no
entry. -/
theorem C3_integer_selector_reduction_log (x : NumericalData) (item : List Sel)
    (c pAfter : NumericalData) (hok : ilocGetitem x item = .ok (c, pAfter)) :
    ∃ ex, ilocNormalize x.data_array.shape.length item = .ok ex ∧
      ∃ news, c.reduced_axes = x.reduced_axes ++ news ∧
      ∀ p, p < ex.length →
        (∀ j, ex.getD p sliceAll = .int j →
          news.countP (fun e => e.axis == p) = 1 ∧
          ∃ e, e ∈ news ∧ e.axis = p ∧ e.index = j ∧
            e.axis_name = x.axes_names.getD p none ∧
            e.value = (x.axes.getD p none).map (fun ax => ax.getD j 0)) ∧
        ((ex.getD p sliceAll).isInt = false →
          news.countP (fun e => e.axis == p) = 0) := by
  unfold ilocGetitem at hok
  cases h1 : npGetItem x.data_array item with
  | error e => rw [h1] at hok; simp at hok
  | ok sub =>
    rw [h1] at hok
    dsimp only at hok
    cases h2 : ilocNormalize x.data_array.shape.length item with
    | error e => rw [h2] at hok; simp at hok
    | ok ex =>
      rw [h2] at hok
      dsimp only at hok
      cases h3 : ilocLoop x.axes x.axes_names ex 0 with
      | error e => rw [h3] at hok; simp at hok
      | ok out =>
        obtain ⟨sa, sn, ra⟩ := out
        rw [h3] at hok
        cases hok
        refine ⟨ex, rfl, ra, rfl, ?_⟩
        obtain ⟨hrange, hprop⟩ := ilocLoop_reduced x.axes x.axes_names ex 0 sa sn ra h3
        intro p hp
        simpa using hprop p hp

/-- C3 witness: the theorem applied to a concrete 2x3 container indexed
with a bare integer at position 0: exactly one log entry appears, with
position 0, index 1, the axis name `time`, and the coordinate 20 that
was at that index. -/
theorem C3_integer_selector_reduction_log_witness :
    ∃ ex, ilocNormalize sampleX2.data_array.shape.length [Sel.int 1] = .ok ex ∧
      ∃ news, (⟨⟨[3], [4, 5, 6]⟩, [some [100, 200, 300]], [some "wavelength"],
          [⟨some "time", 0, 1, some 20⟩], .nil⟩ : NumericalData).reduced_axes =
        sampleX2.reduced_axes ++ news ∧
      ∀ p, p < ex.length →
        (∀ j, ex.getD p sliceAll = .int j →
          news.countP (fun e => e.axis == p) = 1 ∧
          ∃ e, e ∈ news ∧ e.axis = p ∧ e.index = j ∧
            e.axis_name = sampleX2.axes_names.getD p none ∧
            e.value = (sampleX2.axes.getD p none).map (fun ax => ax.getD j 0)) ∧
        ((ex.getD p sliceAll).isInt = false →
          news.countP (fun e => e.axis == p) = 0) :=
  C3_integer_selector_reduction_log sampleX2 [Sel.int 1]
    ⟨⟨[3], [4, 5, 6]⟩, [some [100, 200, 300]], [some "wavelength"],
      [⟨some "time", 0, 1, some 20⟩], .nil⟩
    { sampleX2 with reduced_axes := [⟨some "time", 0, 1, some 20⟩] }
    (by decide)

theorem length_allIdxs (s : List Nat) : (allIdxs s).length = s.prod := by
  induction s with
  | nil => rfl
  | cons n t ih =>
    simp [allIdxs, List.length_flatten', List.map_map, Function.comp_def, ih]

theorem flatten_getElem_segment {α : Type} : ∀ (ls : List (List α)) (L i r : Nat),
    (∀ l, l ∈ ls → l.length = L) → r < L → i < ls.length →
    ls.flatten[i * L + r]? = (ls.getD i [])[r]? := by
  intro ls
  induction ls with
  | nil => intro L i r _ _ hi; simp at hi
  | cons l ls ih =>
    intro L i r hL hr hi
    cases i with
    | zero =>
      have hl : l.length = L := hL l (by simp)
      rw [List.flatten_cons, List.getElem?_append]
      rw [if_pos (by omega)]
      simp
    | succ i =>
      have hl : l.length = L := hL l (by simp)
      have hmul : (i + 1) * L = i * L + L := by ring
      rw [List.flatten_cons, List.getElem?_append]
      rw [if_neg (by omega)]
      have harith : (i + 1) * L + r - l.length = i * L + r := by omega
      rw [harith]
      rw [ih L i r (fun x hx => hL x (by simp [hx])) hr (by simpa using hi)]
      simp

theorem flatIndex_lt_prod : ∀ (s idx : List Nat), validIdx s idx = true →
    flatIndex s idx < s.prod := by
  intro s
  induction s with
  | nil =>
    intro idx h
    cases idx with
    | nil => simp [flatIndex]
    | cons i t => simp [validIdx] at h
  | cons n s ih =>
    intro idx h
    cases idx with
    | nil => simp [validIdx] at h
    | cons i t =>
      have h1 : i < n ∧ validIdx s t = true := by simpa [validIdx] using h
      have h2 := ih t h1.2
      have h3 : i + 1 ≤ n := h1.1
      calc flatIndex (n :: s) (i :: t) = i * s.prod + flatIndex s t := rfl
        _ < i * s.prod + s.prod := by omega
        _ = (i + 1) * s.prod := by ring
        _ ≤ n * s.prod := Nat.mul_le_mul_right _ h3
        _ = (n :: s).prod := by simp

theorem allIdxs_getElem? : ∀ (s idx : List Nat), validIdx s idx = true →
    (allIdxs s)[flatIndex s idx]? = some idx := by
  intro s
  induction s with
  | nil =>
    intro idx h
    cases idx with
    | nil => rfl
    | cons i t => simp [validIdx] at h
  | cons n s ih =>
    intro idx h
    cases idx with
    | nil => simp [validIdx] at h
    | cons i t =>
      have h1 : i < n ∧ validIdx s t = true := by simpa [validIdx] using h
      have hr : flatIndex s t < s.prod := flatIndex_lt_prod s t h1.2
      have hseg := flatten_getElem_segment
        ((List.range n).map (fun i => (allIdxs s).map (fun idx => i :: idx)))
        s.prod i (flatIndex s t)
        (fun l hl => by
          obtain ⟨j, hj, rfl⟩ := List.mem_map.mp hl
          simp [length_allIdxs])
        hr (by simpa using h1.1)
      have hflat : flatIndex (n :: s) (i :: t) = i * s.prod + flatIndex s t := rfl
      rw [show allIdxs (n :: s) =
        ((List.range n).map (fun i => (allIdxs s).map (fun idx => i :: idx))).flatten from rfl]
      rw [hflat, hseg]
      have hgd : ((List.range n).map (fun i => (allIdxs s).map (fun idx => i :: idx))).getD i []
          = (allIdxs s).map (fun idx => i :: idx) := by
        have hilt : i < ((List.range n).map
            (fun i => (allIdxs s).map (fun idx => i :: idx))).length := by simpa using h1.1
        rw [List.getD_eq_getElem _ _ hilt, List.getElem_map]
        simp [List.getElem_range]
      rw [hgd, List.getElem?_map, ih t h1.2]
      rfl

theorem ofFn_get (shape : List Nat) (f : List Nat → ℚ) (idx : List Nat)
    (h : validIdx shape idx = true) : (NpArray.ofFn shape f).get idx = f idx := by
  show ((allIdxs shape).map f).getD (flatIndex shape idx) 0 = f idx
  rw [List.getD_eq_getD_get?, List.get?_eq_getElem?, List.getElem?_map,
    allIdxs_getElem? shape idx h]
  rfl

theorem pad_eq {α : Type} (l : List (Option α)) (n : Nat) (h : l.length ≤ n) :
    (if n > l.length then l ++ List.replicate (n - l.length) (none : Option α) else l) =
      l ++ List.replicate (n - l.length) none := by
  by_cases hc : n > l.length
  · rw [if_pos hc]
  · rw [if_neg hc]
    have h0 : n - l.length = 0 := by omega
    simp [h0]

theorem pyInsert_eq_insert {α : Type} (l : List α) (i : Int) (x : α)
    (h0 : 0 ≤ i) (h1 : i ≤ (l.length : Int)) :
    pyInsert l i x = l.take i.toNat ++ x :: l.drop i.toNat := by
  have hni : ¬ i < 0 := by omega
  simp only [pyInsert]
  rw [if_neg hni]
  have hj : (0 ⊔ i ⊓ (l.length : Int)).toNat = i.toNat := by omega
  rw [hj]

theorem npStack_ok (a0 : NpArray) (rest : List NpArray) (axis : Int) (k : Nat)
    (hsh : ∀ a, a ∈ rest → a.shape = a0.shape)
    (hlo : -((a0.shape.length : Int) + 1) ≤ axis)
    (hhi : axis < (a0.shape.length : Int) + 1)
    (hk : k = (if axis < 0 then axis + ((a0.shape.length : Int) + 1) else axis).toNat) :
    npStack (a0 :: rest) axis = .ok (NpArray.ofFn
      (a0.shape.take k ++ (rest.length + 1) :: a0.shape.drop k)
      (fun idx => ((a0 :: rest).getD (idx.getD k 0) a0).get (idx.eraseIdx k))) := by
  have hall : rest.all (fun a => a.shape == a0.shape) = true := by
    rw [List.all_eq_true]
    intro a ha
    exact beq_iff_eq.mpr (hsh a ha)
  simp only [npStack, hall, if_true]
  rw [if_neg (by omega)]
  have hk2 : (if axis < 0 then axis + ((a0.shape.length : Int) + 1) else axis).toNat = k :=
    hk.symm
  rw [hk2]
  simp

theorem getD_map_data : ∀ (l : List NumericalData) (j : Nat) (d : NumericalData),
    (l.map (fun o => o.data_array)).getD j d.data_array = (l.getD j d).data_array := by
  intro l
  induction l with
  | nil => intro j d; rfl
  | cons o t ih =>
    intro j d
    cases j with
    | zero => rfl
    | succ j => exact ih j d

/-- C6: stacking same-shape containers along a (possibly negative) axis
position yields a grid of rank one higher, whose shape inserts the new
axis of length `len inputs` at the normalized position `k`, whose entry
at any multi-index is the corresponding entry of the input selected by
the index along the new axis (the grids are concatenated along a new
axis at position `k`), and whose axis and name lists are the first
input's lists padded with `None` to the rank and with the new axis
coordinate array and name inserted at that same position `k` — a
negative `axis` counting from the end of the longer list exactly as it
indexes the resulting grid. -/
theorem C6_stack_inserts_new_axis (o0 : NumericalData) (rest : List NumericalData)
    (axis : Int) (na : Option (List ℚ)) (nn : Option String) (retain : Bool) (k : Nat)
    (hsh : ∀ o, o ∈ rest → o.data_array.shape = o0.data_array.shape)
    (hax : o0.axes.length ≤ o0.data_array.shape.length)
    (hnm : o0.axes_names.length ≤ o0.data_array.shape.length)
    (hlo : -((o0.data_array.shape.length : Int) + 1) ≤ axis)
    (hhi : axis < (o0.data_array.shape.length : Int) + 1)
    (hk : k = (if axis < 0 then axis + ((o0.data_array.shape.length : Int) + 1)
      else axis).toNat) :
    ∃ r, NumericalData.stack (o0 :: rest) axis na nn retain = .ok r ∧
      r.data_array.shape.length = o0.data_array.shape.length + 1 ∧
      r.data_array.shape =
        o0.data_array.shape.take k ++ (rest.length + 1) :: o0.data_array.shape.drop k ∧
      (∀ idx, validIdx r.data_array.shape idx = true →
        r.data_array.get idx =
          ((o0 :: rest).getD (idx.getD k 0) o0).data_array.get (idx.eraseIdx k)) ∧
      r.axes =
        (o0.axes ++ List.replicate (o0.data_array.shape.length - o0.axes.length) none).take k
          ++ na ::
          (o0.axes ++ List.replicate (o0.data_array.shape.length - o0.axes.length) none).drop k ∧
      r.axes_names =
        (o0.axes_names ++
          List.replicate (o0.data_array.shape.length - o0.axes_names.length) none).take k
          ++ nn ::
          (o0.axes_names ++
            List.replicate (o0.data_array.shape.length - o0.axes_names.length) none).drop k := by
  have hkle : k ≤ o0.data_array.shape.length := by
    rcases Int.lt_or_le axis 0 with hneg | hpos
    · rw [if_pos hneg] at hk
      omega
    · rw [if_neg (by omega)] at hk
      omega
  have hnp := npStack_ok o0.data_array (rest.map (fun o => o.data_array)) axis k
    (fun a ha => by
      obtain ⟨o, ho, rfl⟩ := List.mem_map.mp ha
      exact hsh o ho)
    hlo hhi hk
  refine ⟨⟨NpArray.ofFn
      (o0.data_array.shape.take k ++
        ((rest.map (fun o => o.data_array)).length + 1) :: o0.data_array.shape.drop k)
      (fun idx => ((o0.data_array :: rest.map (fun o => o.data_array)).getD
        (idx.getD k 0) o0.data_array).get (idx.eraseIdx k)),
    pyInsert (if o0.data_array.shape.length > o0.axes.length then
        o0.axes ++ List.replicate (o0.data_array.shape.length - o0.axes.length) none
      else o0.axes)
      (if axis < 0 then
        ((if o0.data_array.shape.length > o0.axes.length then
            o0.axes ++ List.replicate (o0.data_array.shape.length - o0.axes.length) none
          else o0.axes).length : Int) + 1 + axis
       else axis) na,
    pyInsert (if o0.data_array.shape.length > o0.axes_names.length then
        o0.axes_names ++
          List.replicate (o0.data_array.shape.length - o0.axes_names.length) none
      else o0.axes_names)
      (if axis < 0 then
        ((if o0.data_array.shape.length > o0.axes_names.length then
            o0.axes_names ++
              List.replicate (o0.data_array.shape.length - o0.axes_names.length) none
          else o0.axes_names).length : Int) + 1 + axis
       else axis) nn,
    [],
    if retain then
      (o0.metadata).set "_individual_metadata" (.dict (individualMeta (o0 :: rest)))
    else o0.metadata⟩, ?_, ?_, ?_, ?_, ?_, ?_⟩
  · simp only [NumericalData.stack, List.map_cons] at hnp ⊢
    rw [hnp]
  · simp only [NpArray.ofFn]
    simp [List.length_take, List.length_drop]
    omega
  · simp [NpArray.ofFn, List.length_map]
  · intro idx hv
    dsimp only at hv ⊢
    have hv2 : validIdx (o0.data_array.shape.take k ++
        ((rest.map (fun o => o.data_array)).length + 1) ::
          o0.data_array.shape.drop k) idx = true := by
      simpa [NpArray.ofFn] using hv
    rw [ofFn_get _ _ idx hv2]
    rw [show (o0.data_array :: rest.map (fun o => o.data_array)) =
      (o0 :: rest).map (fun o => o.data_array) from rfl]
    rw [getD_map_data]
  · dsimp only
    rw [pad_eq o0.axes _ hax]
    have hplen : (o0.axes ++
        List.replicate (o0.data_array.shape.length - o0.axes.length)
          (none : Option (List ℚ))).length = o0.data_array.shape.length := by
      simp
      omega
    rw [hplen]
    rcases Int.lt_or_le axis 0 with hneg | hpos
    · rw [if_pos hneg] at hk ⊢
      rw [pyInsert_eq_insert _ _ _ (by omega) (by rw [hplen]; omega)]
      rw [show ((o0.data_array.shape.length : Int) + 1 + axis).toNat = k from by omega]
    · rw [if_neg (by omega)] at hk ⊢
      rw [pyInsert_eq_insert _ _ _ (by omega) (by rw [hplen]; omega)]
      rw [show axis.toNat = k from by omega]
  · dsimp only
    rw [pad_eq o0.axes_names _ hnm]
    have hplen : (o0.axes_names ++
        List.replicate (o0.data_array.shape.length - o0.axes_names.length)
          (none : Option String)).length = o0.data_array.shape.length := by
      simp
      omega
    rw [hplen]
    rcases Int.lt_or_le axis 0 with hneg | hpos
    · rw [if_pos hneg] at hk ⊢
      rw [pyInsert_eq_insert _ _ _ (by omega) (by rw [hplen]; omega)]
      rw [show ((o0.data_array.shape.length : Int) + 1 + axis).toNat = k from by omega]
    · rw [if_neg (by omega)] at hk ⊢
      rw [pyInsert_eq_insert _ _ _ (by omega) (by rw [hplen]; omega)]
      rw [show axis.toNat = k from by omega]

/-- C6 witness: stacking two concrete 1-d containers along axis -1:
rank rises from 1 to 2, the new axis of length 2 lands at normalized
position 1, each result entry comes from the input selected along the
new axis, and the new coordinate array and name are inserted at
position 1 of the first input's axis and name lists. -/
theorem C6_stack_inserts_new_axis_witness :
    ∃ r, NumericalData.stack [sampleX1, sampleY1] (-1) (some [5, 6]) (some "n") false =
        .ok r ∧
      r.data_array.shape.length = sampleX1.data_array.shape.length + 1 ∧
      r.data_array.shape = sampleX1.data_array.shape.take 1 ++
        ([sampleY1].length + 1) :: sampleX1.data_array.shape.drop 1 ∧
      (∀ idx, validIdx r.data_array.shape idx = true →
        r.data_array.get idx =
          ((sampleX1 :: [sampleY1]).getD (idx.getD 1 0) sampleX1).data_array.get
            (idx.eraseIdx 1)) ∧
      r.axes = (sampleX1.axes ++
          List.replicate (sampleX1.data_array.shape.length - sampleX1.axes.length) none).take 1
        ++ some [5, 6] :: (sampleX1.axes ++
          List.replicate (sampleX1.data_array.shape.length - sampleX1.axes.length) none).drop 1 ∧
      r.axes_names = (sampleX1.axes_names ++
          List.replicate
            (sampleX1.data_array.shape.length - sampleX1.axes_names.length) none).take 1
        ++ some "n" :: (sampleX1.axes_names ++
          List.replicate
            (sampleX1.data_array.shape.length - sampleX1.axes_names.length) none).drop 1 :=
  C6_stack_inserts_new_axis sampleX1 [sampleY1] (-1) (some [5, 6]) (some "n") false 1
    (by
      intro o ho
      rcases List.mem_singleton.mp ho with rfl
      rfl)
    (by decide) (by decide) (by decide) (by decide) (by decide)
